import Mathlib

/-
Verification development for the `ra` command-line argument parsing library.

The definitions below are a shallow embedding of the Go sources:
  - ra_cmd_parse.go   (parsing state machine, constraint validator)
  - ra_cmd.go         (command tree, global-flag shadowing)
  - ra_flag_int.go    (registration, IntFlag)
  - the StringFlag registration file and the completion engine file

Modelling notes, applying to the whole development:
  * Go maps are modelled as association lists; where Go iterates a map the
    iteration order is observationally irrelevant (results are sorted, or the
    traversal computes an order-independent boolean), so a fixed list order is
    faithful.
  * Go mutates `Cmd` and flag values through pointers; here every mutating
    function returns the updated `Cmd`.  Functions that in Go return an
    `error` after having already mutated state return `Cmd × Option PErr`
    (or `Cmd × Except PErr Nat` when a consumed-token count is produced),
    preserving the mutations made before the error.
  * The library supports ten flag kinds (Bool, String, Int, Int64, Float64 and
    list forms of each).  The properties verified here exercise Bool, String,
    Int and String-list flags; the remaining kinds repeat the same code shape
    case for case and are not duplicated in the embedding.
  * String regular-expression constraints and the permissive
    `variadicUnknownFlags` probe (which re-enters parseFlag recursively) are
    not exercised by any verified property; the probe is marked by an explicit
    `PErr.unmodelled` sentinel and regex constraints are omitted from the
    StringFlag model.
-/

namespace Ra

/-- Association list lookup, modelling a Go `map[string]V` read. -/
def lookupA {α : Type} (l : List (String × α)) (k : String) : Option α :=
  (l.find? (fun p => p.1 == k)).map (fun p => p.2)

/-- Association list insert/overwrite, modelling a Go `map[string]V` write. -/
def insertA {α : Type} (l : List (String × α)) (k : String) (v : α) :
    List (String × α) :=
  if (l.find? (fun p => p.1 == k)).isSome then
    l.map (fun p => if p.1 == k then (k, v) else p)
  else
    l ++ [(k, v)]

/-- Association list delete, modelling Go `delete(m, k)`. -/
def removeA {α : Type} (l : List (String × α)) (k : String) :
    List (String × α) :=
  l.filter (fun p => !(p.1 == k))

/-- Remove the first occurrence of a name from a list, modelling the
slice-splice idiom `append(xs[:i], xs[i+1:]...)` used on name lists. -/
def removeFirst (l : List String) (k : String) : List String :=
  match l with
  | [] => []
  | x :: xs => if x == k then xs else x :: removeFirst xs k

/-- Add a name to a string set modelled as a duplicate-free list
(Go `map[string]bool` used as a set). -/
def insertName (l : List String) (k : String) : List String :=
  if l.contains k then l else l ++ [k]

/-- Byte-level digit test, from `isDigit` in the helpers file. -/
def isDigitChar (c : Char) : Bool :=
  '0' ≤ c ∧ c ≤ '9'

/-- String drop modelling Go slicing `s[n:]` (the parser only slices at
ASCII boundaries, so dropping characters is faithful). -/
def strDrop (s : String) (n : Nat) : String :=
  ⟨s.data.drop n⟩

/-- Prefix test modelling Go `strings.HasPrefix`. -/
def strStartsWith (s pre : String) : Bool :=
  pre.data.isPrefixOf s.data

/-- Split a string at its first `=`, modelling the
`strings.Index(s, "=")` / slice pattern used for `--name=value` and
`-x=value` handling.  Returns the part before the `=` and, when an `=` is
present, the part after it. -/
def splitFirstEq (s : String) : String × Option String :=
  match s.data.findIdx? (fun c => c == '=') with
  | none => (s, none)
  | some i => (⟨s.data.take i⟩, some ⟨s.data.drop (i + 1)⟩)

/-- Boolean parsing modelling Go `strconv.ParseBool`. -/
def strconvParseBool (s : String) : Option Bool :=
  if s = "1" ∨ s = "t" ∨ s = "T" ∨ s = "TRUE" ∨ s = "true" ∨ s = "True" then
    some true
  else if s = "0" ∨ s = "f" ∨ s = "F" ∨ s = "FALSE" ∨ s = "false" ∨ s = "False" then
    some false
  else
    none

/-- Decimal digit run accumulation used by `strconvParseInt64`. -/
def parseDigits : List Char → Option Nat
  | [] => none
  | l =>
    l.foldl
      (fun acc c =>
        match acc with
        | none => none
        | some n => if isDigitChar c then some (n * 10 + (c.toNat - '0'.toNat)) else none)
      (some 0)

/-- Largest int64, for the overflow behaviour of `strconv.ParseInt(s, 10, 64)`. -/
def int64Max : Nat := 9223372036854775807

/-- Integer parsing modelling Go `strconv.ParseInt(s, 10, 64)` (and
`strconv.Atoi` on a 64-bit platform): optional sign, decimal digits,
error on empty input or 64-bit overflow. -/
def strconvParseInt64 (s : String) : Option Int :=
  match s.data with
  | '+' :: rest => (parseDigits rest).bind fun n =>
      if n ≤ int64Max then some (Int.ofNat n) else none
  | '-' :: rest => (parseDigits rest).bind fun n =>
      if n ≤ int64Max + 1 then some (-(Int.ofNat n)) else none
  | chars => (parseDigits chars).bind fun n =>
      if n ≤ int64Max then some (Int.ofNat n) else none

/-- Kind-specific flag data: default value, bound value (the write-target,
embedded in the flag record) and kind-specific constraints.  Mirrors
`Flag[T]`, `StringFlag`, `IntFlag` and `SliceFlag[string]`.  A `none`
default models a nil `Default` pointer; the bound value starts at the Go
zero value, as `Register` allocates it with `new(T)`. -/
inductive FlagData where
  | boolF (dflt : Option Bool) (value : Bool)
  | strF (dflt : Option String) (value : String) (enum : Option (List String))
  | intF (dflt : Option Int) (value : Int)
      (min max : Option Int) (minInclusive maxInclusive : Option Bool)
  | strListF (dflt : Option (List String)) (value : List String)
      (separator : Option String) (variadic : Bool)

/-- Shared flag descriptor, mirroring `BaseFlag` plus the kind-specific
payload.  `completionFunc` returns candidates plus a directive bitmask. -/
structure RaFlag where
  name : String
  short : String := ""
  usage : String := ""
  optional : Bool := false
  hidden : Bool := false
  hiddenInShortHelp : Bool := false
  positionalOnly : Bool := false
  flagOnly : Bool := false
  requiresF : Option (List String) := none
  excludes : Option (List String) := none
  bypassValidation : Bool := false
  completionFunc : Option (String → List String × Nat) := none
  data : FlagData

/-- Command node, mirroring the `Cmd` struct.  Subcommands appear only by
name: none of the verified properties descends into a subcommand parse, and
the recursion point is marked by `PErr.subcommandDescend`. -/
structure Cmd where
  name : String
  flags : List (String × RaFlag) := []
  positional : List String := []
  nonPositional : List String := []
  globalFlags : List String := []
  overriddenGlobalFlags : List (String × RaFlag) := []
  shadowedShortFlags : List String := []
  subCmds : List String := []
  shortToName : List (String × String) := []
  helpEnabled : Bool := true
  autoHelpOnNoArgs : Bool := false
  configured : List String := []
  unknownArgs : List String := []
  lastVariadicFlag : String := ""
  sawFlag : Bool := false

/-- Fresh command, mirroring `NewCmd`. -/
def newCmd (name : String) : Cmd := { name := name }

/-- Flag lookup in a command (`c.flags[name]`). -/
def lookupFlag (c : Cmd) (name : String) : Option RaFlag :=
  lookupA c.flags name

/-- Mark a flag configured (`c.configured[name] = true`). -/
def setConfigured (c : Cmd) (name : String) : Cmd :=
  { c with configured := insertName c.configured name }

/-- Overwrite a flag's kind-specific data in place, modelling a write
through the flag's value pointer. -/
def setFlagData (c : Cmd) (name : String) (d : FlagData) : Cmd :=
  { c with
    flags := c.flags.map (fun p => if p.1 == name then (p.1, { p.2 with data := d }) else p) }

/-- Projection: bound value of a Bool flag. -/
def flagBoolValue (c : Cmd) (name : String) : Option Bool :=
  match lookupFlag c name with
  | some f => match f.data with
    | .boolF _ v => some v
    | _ => none
  | none => none

/-- Projection: bound value of a String flag. -/
def flagStrValue (c : Cmd) (name : String) : Option String :=
  match lookupFlag c name with
  | some f => match f.data with
    | .strF _ v _ => some v
    | _ => none
  | none => none

/-- Projection: bound value of an Int flag. -/
def flagIntValue (c : Cmd) (name : String) : Option Int :=
  match lookupFlag c name with
  | some f => match f.data with
    | .intF _ v _ _ _ _ => some v
    | _ => none
  | none => none

/-- Projection: bound value of a String-list flag. -/
def flagListValue (c : Cmd) (name : String) : Option (List String) :=
  match lookupFlag c name with
  | some f => match f.data with
    | .strListF _ v _ _ => some v
    | _ => none
  | none => none

/-- User-input and sentinel errors produced during parsing, one constructor
per distinct error site in the Go sources (each corresponds to a unique
`fmt.Errorf` format string, so error equality here matches Go message
equality, which the parser relies on for the `not a flag` sentinel). -/
inductive PErr where
  | notAFlag (arg : String)
  | invalidFlag (arg : String)
  | unknownFlag (name : String)
  | unknownShorthand (s : String)
  | unknownShorthandInCluster (s : String)
  | flagNeedsValue (name : String)
  | invalidBoolValue (flagRef value : String)
  | nonBoolMustBeLast (s : String)
  | enumViolation (name value : String)
  | invalidIntValue (name value : String)
  | intBelowMin (name : String) (value bound : Int) (inclusive : Bool)
  | intAboveMax (name : String) (value bound : Int) (inclusive : Bool)
  | invalidBoolPositional (name value : String)
  | tooManyPositional (arg : String)
  | requiresViolation (name req : String)
  | excludesViolation (name excluded : String)
  | missingRequired (names : List String)
  | undefinedFlagRef (name : String)
  | unsupportedFlagType (name : String)
  | helpInvoked (isLongHelp isAutoHelp : Bool)
  | dumpInvoked
  | subcommandDescend (name : String)
  | unmodelled (what : String)
  deriving DecidableEq

/-- Configuration (registration-time) errors, mirroring the `fmt.Errorf`
returns of `RegisterWithPtr` and `checkForGlobalFlagOverride`. -/
inductive RegErr where
  | emptyName
  | positionalAndFlagOnly (name : String)
  | invalidDefault (name : String)
  | flagAlreadyDefined (name : String)
  | shortAlreadyDefined (short : String)
  | positionalOnlyAfterVariadic (name existing : String)
  deriving DecidableEq

/-- Enum/regex-checked string bind, from `setStringValue` (regex constraints
are not modelled; no verified property uses them).  Returns the value to
write or the violation. -/
def setStringValue (fname : String) (enum : Option (List String)) (value : String) :
    Except PErr String :=
  match enum with
  | some allowed =>
    if allowed.contains value then .ok value
    else .error (.enumViolation fname value)
  | none => .ok value

/-- Range-checked integer bind, from `setIntValue`.  The platform-int
overflow test follows the 64-bit case, where it never rejects a value that
`strconv.ParseInt(s, 10, 64)` accepted. -/
def setIntValue (fname : String) (mn mx : Option Int) (minInclusive maxInclusive : Option Bool)
    (value : String) : Except PErr Int :=
  match strconvParseInt64 value with
  | none => .error (.invalidIntValue fname value)
  | some val =>
    match mn with
    | some m =>
      let inclusive := (minInclusive.getD true)
      if (inclusive ∧ val < m) ∨ (¬inclusive ∧ val ≤ m) then
        .error (.intBelowMin fname val m inclusive)
      else
        match mx with
        | some mxv =>
          let inclusiveMax := (maxInclusive.getD true)
          if (inclusiveMax ∧ val > mxv) ∨ (¬inclusiveMax ∧ val ≥ mxv) then
            .error (.intAboveMax fname val mxv inclusiveMax)
          else .ok val
        | none => .ok val
    | none =>
      match mx with
      | some mxv =>
        let inclusiveMax := (maxInclusive.getD true)
        if (inclusiveMax ∧ val > mxv) ∨ (¬inclusiveMax ∧ val ≥ mxv) then
          .error (.intAboveMax fname val mxv inclusiveMax)
        else .ok val
      | none => .ok val

/-- Permissive boolean parsing, from `parseBoolValue`: `strconv.ParseBool`
plus a `0`/`1` fallback (which `ParseBool` already accepts, so the fallback
is absorbed by `strconvParseBool`). -/
def parseBoolValue (value : String) : Option Bool :=
  strconvParseBool value

/-- Split a raw list value on the configured separator, the common tail of
`appendStringSliceValue`. -/
def splitParts (separator : Option String) (value : String) : List String :=
  match separator with
  | some s => value.splitOn s
  | none => [value]

/-- Core of `appendStringSliceValue`: when the current bound list is
element-wise equal to the (non-nil) default, the incoming value replaces it
wholesale; otherwise the (separator-split) value is appended. -/
def appendStringSliceValue (dflt : Option (List String)) (separator : Option String)
    (cur : List String) (value : String) : List String :=
  let shouldReplace : Bool :=
    match dflt with
    | some d => cur = d
    | none => false
  (if shouldReplace then [] else cur) ++ splitParts separator value

/-- Append one raw value to a String-list flag through its write-target
(string appends never fail, unlike the numeric list kinds). -/
def appendStrListValue (c : Cmd) (fname value : String) : Cmd :=
  match lookupFlag c fname with
  | some f =>
    match f.data with
    | .strListF dflt cur sep vard =>
      setFlagData c fname (.strListF dflt (appendStringSliceValue dflt sep cur value) sep vard)
    | _ => c
  | none => c

/-- Default-value validation at registration, from the per-kind
`validateDefaultValue` functions. -/
def validateDefaultValue (f : RaFlag) : Option RegErr :=
  match f.data with
  | .boolF _ _ => none
  | .strF dflt _ enum =>
    match dflt with
    | some d =>
      match enum with
      | some allowed => if allowed.contains d then none else some (.invalidDefault f.name)
      | none => none
    | none => none
  | .intF dflt _ mn mx mni mxi =>
    match dflt with
    | some d =>
      let minBad : Bool :=
        match mn with
        | some m =>
          let inclusive := mni.getD true
          (inclusive ∧ d < m) ∨ (¬inclusive ∧ d ≤ m)
        | none => false
      let maxBad : Bool :=
        match mx with
        | some m =>
          let inclusive := mxi.getD true
          (inclusive ∧ d > m) ∨ (¬inclusive ∧ d ≥ m)
        | none => false
      if minBad then some (.invalidDefault f.name)
      else if maxBad then some (.invalidDefault f.name)
      else none
    | none => none
  | .strListF _ _ _ _ => none

/-- Zero-initialise a flag's bound value, modelling `ptr := new(T)` in the
per-kind `Register` functions. -/
def zeroValue : FlagData → FlagData
  | .boolF dflt _ => .boolF dflt false
  | .strF dflt _ enum => .strF dflt "" enum
  | .intF dflt _ mn mx mni mxi => .intF dflt 0 mn mx mni mxi
  | .strListF dflt _ sep vard => .strListF dflt [] sep vard

/-- Variadic test, from `isVariadicFlag` in the completion engine (and the
per-kind switches at registration). -/
def isVariadicFlag (f : RaFlag) : Bool :=
  match f.data with
  | .strListF _ _ _ vard => vard
  | _ => false

/-- Bool-kind test, from `isBoolFlag`. -/
def isBoolFlag (f : RaFlag) : Bool :=
  match f.data with
  | .boolF _ _ => true
  | _ => false

/-- List-kind test, from `isSliceFlag`. -/
def isSliceFlag (f : RaFlag) : Bool :=
  match f.data with
  | .strListF _ _ _ _ => true
  | _ => false

/-- Registration-order guard from `validatePositionalOnlyAfterVariadic`:
a positional-only flag may not be registered after a variadic positional. -/
def validatePositionalOnlyAfterVariadic (c : Cmd) (flagName : String) : Option RegErr :=
  match c.positional.find? (fun existingName =>
      match lookupFlag c existingName with
      | some f => isVariadicFlag f
      | none => false) with
  | some existingName => some (.positionalOnlyAfterVariadic flagName existingName)
  | none => none

/-- Global-flag collision resolution, translated from
`checkForGlobalFlagOverride` in ra_cmd.go.  The Go function also returns a
boolean, which its callers discard; only the state mutations and the error
are modelled.  When the short-collision branch finds a dangling
short-mapping (no flag record), Go would store a nil entry; that state is
unreachable through registration and is modelled as leaving the flag table
unchanged. -/
def checkForGlobalFlagOverride (c : Cmd) (flagName flagShort : String) (isGlobal : Bool) :
    Cmd × Option RegErr :=
  match lookupFlag c flagName with
  | some existingFlag =>
    if ¬isGlobal then
      if c.globalFlags.contains flagName then
        let c := { c with
          overriddenGlobalFlags := insertA c.overriddenGlobalFlags flagName existingFlag }
        let c :=
          if existingFlag.short ≠ "" then
            { c with shortToName := removeA c.shortToName existingFlag.short }
          else c
        let c := { c with
          positional := removeFirst c.positional flagName,
          nonPositional := removeFirst c.nonPositional flagName }
        (c, none)
      else (c, some (.flagAlreadyDefined flagName))
    else (c, some (.flagAlreadyDefined flagName))
  | none =>
    if flagShort ≠ "" ∧ ¬isGlobal then
      match lookupA c.shortToName flagShort with
      | some existingFlagName =>
        if c.globalFlags.contains existingFlagName then
          match lookupFlag c existingFlagName with
          | some existingFlag =>
            let c := { c with
              overriddenGlobalFlags :=
                insertA c.overriddenGlobalFlags existingFlagName existingFlag,
              shadowedShortFlags := insertName c.shadowedShortFlags existingFlagName,
              shortToName := removeA c.shortToName flagShort }
            let flagCopy := { existingFlag with short := "" }
            ({ c with flags := insertA c.flags existingFlagName flagCopy }, none)
          | none =>
            ({ c with
              shadowedShortFlags := insertName c.shadowedShortFlags existingFlagName,
              shortToName := removeA c.shortToName flagShort }, none)
        else (c, some (.shortAlreadyDefined flagShort))
      | none => (c, none)
    else (c, none)

/-- Registration, translated from `RegisterWithPtr` (the IntFlag body in
ra_flag_int.go and the StringFlag body; they differ only in that the string
kind also forces `Optional := true` on global flags).  The Bool and
String-list register bodies are not among the provided sources; they are
Modelled from the spec (section 4.1: same validation/error sequence, no
extra per-kind constraint), following the Int body's global handling.
Errors return the partially mutated command, matching Go's in-place
mutation before an error return. -/
def registerFlag (f : RaFlag) (cmd : Cmd) (global bypass : Bool) : Cmd × Option RegErr :=
  if f.name = "" then (cmd, some .emptyName)
  else if f.positionalOnly ∧ f.flagOnly then (cmd, some (.positionalAndFlagOnly f.name))
  else
    match validateDefaultValue f with
    | some e => (cmd, some e)
    | none =>
      match checkForGlobalFlagOverride cmd f.name f.short global with
      | (cmd, some e) => (cmd, some e)
      | (cmd, none) =>
        let cmd := if global then { cmd with globalFlags := cmd.globalFlags ++ [f.name] } else cmd
        let fl := { f with bypassValidation := bypass, data := zeroValue f.data }
        let fl := if global then
            match fl.data with
            | .strF _ _ _ => { fl with flagOnly := true, optional := true }
            | _ => { fl with flagOnly := true }
          else fl
        if f.short ≠ "" ∧ (lookupA cmd.shortToName f.short).isSome then
          (cmd, some (.shortAlreadyDefined f.short))
        else
          let cmd :=
            if f.short ≠ "" then
              { cmd with shortToName := insertA cmd.shortToName f.short f.name }
            else cmd
          let cmd := { cmd with flags := insertA cmd.flags f.name fl }
          if ¬fl.flagOnly then
            if fl.positionalOnly then
              match validatePositionalOnlyAfterVariadic cmd f.name with
              | some e => (cmd, some e)
              | none => ({ cmd with positional := cmd.positional ++ [f.name] }, none)
            else ({ cmd with positional := cmd.positional ++ [f.name] }, none)
          else ({ cmd with nonPositional := cmd.nonPositional ++ [f.name] }, none)

/-- Global-flag propagation into a subcommand, translated from
`applyGlobalFlags`: the overridden original (short intact) is preferred,
existing entries in the child are kept, and the propagated flag joins the
child's global and non-positional lists. -/
def applyGlobalFlags (c sub : Cmd) : Cmd :=
  c.globalFlags.foldl
    (fun sub globalFlagName =>
      let fl? :=
        match lookupA c.overriddenGlobalFlags globalFlagName with
        | some overriddenFlag => some overriddenFlag
        | none => lookupFlag c globalFlagName
      match fl? with
      | none => sub
      | some fl =>
        if (lookupFlag sub globalFlagName).isSome then sub
        else
          let sub := { sub with flags := insertA sub.flags globalFlagName fl }
          let sub :=
            if fl.short ≠ "" then
              { sub with shortToName := insertA sub.shortToName fl.short fl.name }
            else sub
          { sub with
            globalFlags := sub.globalFlags ++ [globalFlagName],
            nonPositional := sub.nonPositional ++ [globalFlagName] })
    sub

/-- Parse options, mirroring `parseCfg` (built from `ParseOpt`s). -/
structure ParseCfg where
  ignoreUnknown : Bool := false
  variadicUnknownFlags : Bool := false
  dump : Bool := false

/-- Default-value installation before the scan, from `setDefaults`: scalar
flags receive their default only when one is set; list flags always start
from their default or the empty list (when not already configured). -/
def setDefaults (c : Cmd) : Cmd :=
  { c with
    flags := c.flags.map (fun p =>
      let f := p.2
      if c.configured.contains f.name then p
      else
        match f.data with
        | .boolF dflt _ =>
          match dflt with
          | some d => (p.1, { f with data := .boolF dflt d })
          | none => p
        | .strF dflt _ enum =>
          match dflt with
          | some d => (p.1, { f with data := .strF dflt d enum })
          | none => p
        | .intF dflt _ mn mx mni mxi =>
          match dflt with
          | some d => (p.1, { f with data := .intF dflt d mn mx mni mxi })
          | none => p
        | .strListF dflt _ sep vard =>
          match dflt with
          | some d => (p.1, { f with data := .strListF dflt d sep vard })
          | none => (p.1, { f with data := .strListF dflt [] sep vard })) }

/-- Digit-shorts mode detection, from `hasNumberShorts`. -/
def hasNumberShorts (c : Cmd) : Bool :=
  c.flags.any (fun p =>
    match p.2.short.data with
    | [ch] => isDigitChar ch
    | _ => false)

/-- First unassigned variadic positional (registration order), from
`findNextUnassignedVariadicPositional`. -/
def findNextUnassignedVariadicPositional (c : Cmd) : String :=
  match c.positional.find? (fun name =>
      if c.configured.contains name then false
      else
        match lookupFlag c name with
        | some f => isVariadicFlag f ∧ ¬f.flagOnly
        | none => false) with
  | some name => name
  | none => ""

/-- Help-token scan used before reporting an unknown flag, from
`hasHelpFlags`. -/
def hasHelpFlags (args : List String) : Bool :=
  args.any (fun a => a = "--help" ∨ a = "-h")

/-- Help-sentinel construction, from `createHelpError`: long help iff a
literal `--help` token is present. -/
def createHelpError (args : List String) : PErr :=
  .helpInvoked (args.contains "--help") false

/-- Variadic consumption loop of `parseSliceFlag`, over the tokens after
the flag token: plain tokens are appended, and the first `-`-prefixed token
stops consumption.  In permissive `variadicUnknownFlags` mode Go probes the
token against the flag table by recursively re-entering `parseFlag`; no
verified property enables that mode, and the probe is marked by an
explicit sentinel. -/
def sliceConsumeLoop (fname : String) (cfg : ParseCfg) :
    Cmd → List String → Nat → Cmd × Except PErr Nat
  | c, [], consumed => (c, .ok consumed)
  | c, a :: rest, consumed =>
    if strStartsWith a "-" then
      if cfg.variadicUnknownFlags then (c, .error (.unmodelled "variadic unknown-flag probe"))
      else (c, .ok consumed)
    else sliceConsumeLoop fname cfg (appendStrListValue c fname a) rest (consumed + 1)

/-- String-list value consumption for a bare flag token, from
`parseSliceFlag`: a non-variadic list takes exactly the next token when one
exists (and silently takes nothing when the flag token is last); a variadic
list consumes the following run of non-`-`-prefixed tokens. -/
def parseSliceFlag (c : Cmd) (args : List String) (index : Nat) (fname : String)
    (cfg : ParseCfg) : Cmd × Except PErr Nat :=
  let variadic : Bool :=
    match lookupFlag c fname with
    | some f => isVariadicFlag f
    | none => false
  if ¬variadic then
    match args.get? (index + 1) with
    | none => (c, .ok 1)
    | some t => (appendStrListValue c fname t, .ok 2)
  else
    sliceConsumeLoop fname cfg c (args.drop (index + 1)) 1

/-- Long-flag handling, translated from `parseLongFlag`: strips `--`,
splits an optional `=value`, errors on unknown names (after a help-token
check), marks the flag configured, then binds per kind. -/
def parseLongFlag (c0 : Cmd) (args : List String) (index : Nat) (cfg : ParseCfg) :
    Cmd × Except PErr Nat :=
  let arg := (args.get? index).getD ""
  let (flagName, valOpt) := splitFirstEq (strDrop arg 2)
  match lookupFlag c0 flagName with
  | none =>
    if c0.helpEnabled ∧ hasHelpFlags args then (c0, .error (createHelpError args))
    else (c0, .error (.unknownFlag flagName))
  | some f =>
    let c := setConfigured c0 flagName
    match f.data with
    | .boolF dflt _ =>
      match valOpt with
      | some value =>
        match parseBoolValue value with
        | none => (c, .error (.invalidBoolValue flagName value))
        | some val => (setFlagData c flagName (.boolF dflt val), .ok 1)
      | none => (setFlagData c flagName (.boolF dflt true), .ok 1)
    | .strF dflt _ enum =>
      match valOpt with
      | some value =>
        match setStringValue flagName enum value with
        | .ok v => (setFlagData c flagName (.strF dflt v enum), .ok 1)
        | .error e => (c, .error e)
      | none =>
        match args.get? (index + 1) with
        | none => (c, .error (.flagNeedsValue flagName))
        | some t =>
          match setStringValue flagName enum t with
          | .ok v => (setFlagData c flagName (.strF dflt v enum), .ok 2)
          | .error e => (c, .error e)
    | .intF dflt _ mn mx mni mxi =>
      match valOpt with
      | some value =>
        match setIntValue flagName mn mx mni mxi value with
        | .ok v => (setFlagData c flagName (.intF dflt v mn mx mni mxi), .ok 1)
        | .error e => (c, .error e)
      | none =>
        match args.get? (index + 1) with
        | none => (c, .error (.flagNeedsValue flagName))
        | some t =>
          match setIntValue flagName mn mx mni mxi t with
          | .ok v => (setFlagData c flagName (.intF dflt v mn mx mni mxi), .ok 2)
          | .error e => (c, .error e)
    | .strListF _ _ _ variadic =>
      match valOpt with
      | some value =>
        let c := appendStrListValue c flagName value
        if variadic then ({ c with lastVariadicFlag := flagName }, .ok 1)
        else (c, .ok 1)
      | none =>
        match parseSliceFlag c args index flagName cfg with
        | (c1, .ok consumed) =>
          if variadic then ({ c1 with lastVariadicFlag := flagName }, .ok consumed)
          else (c1, .ok consumed)
        | (c1, .error e) => (c1, .error e)

/-- Per-character cluster scan of `parseShortFlag`: bool shorts are set
true, a non-bool short is only legal as the last character (where it
consumes `=value` or a following token; Int shorts fall back to the count
1 when no plain token follows; a bare string-list short hands over to
`parseSliceFlag` and returns its consumed count directly). -/
def clusterLoop (args : List String) (index : Nat) (hasValue : Bool) (value : String)
    (cfg : ParseCfg) : Cmd → List Char → Nat → Cmd × Except PErr Nat
  | c, [], consumed => (c, .ok consumed)
  | c, ch :: rest, consumed =>
    let shortStr := String.singleton ch
    match lookupA c.shortToName shortStr with
    | none => (c, .error (.unknownShorthandInCluster shortStr))
    | some flagName =>
      match lookupFlag c flagName with
      | none =>
        clusterLoop args index hasValue value cfg (setConfigured c flagName) rest consumed
      | some f =>
        let c := setConfigured c flagName
        let isLast := rest.isEmpty
        match f.data with
        | .boolF dflt _ =>
          clusterLoop args index hasValue value cfg
            (setFlagData c flagName (.boolF dflt true)) rest consumed
        | .strF dflt _ enum =>
          if isLast then
            if hasValue then
              match setStringValue flagName enum value with
              | .ok v =>
                clusterLoop args index hasValue value cfg
                  (setFlagData c flagName (.strF dflt v enum)) rest 1
              | .error e => (c, .error e)
            else
              match args.get? (index + 1) with
              | none => (c, .error (.flagNeedsValue shortStr))
              | some t =>
                match setStringValue flagName enum t with
                | .ok v =>
                  clusterLoop args index hasValue value cfg
                    (setFlagData c flagName (.strF dflt v enum)) rest 2
                | .error e => (c, .error e)
          else (c, .error (.nonBoolMustBeLast shortStr))
        | .intF dflt _ mn mx mni mxi =>
          if isLast then
            if hasValue then
              match setIntValue flagName mn mx mni mxi value with
              | .ok v =>
                clusterLoop args index hasValue value cfg
                  (setFlagData c flagName (.intF dflt v mn mx mni mxi)) rest 1
              | .error e => (c, .error e)
            else
              match args.get? (index + 1) with
              | some t =>
                if ¬strStartsWith t "-" then
                  match setIntValue flagName mn mx mni mxi t with
                  | .ok v =>
                    clusterLoop args index hasValue value cfg
                      (setFlagData c flagName (.intF dflt v mn mx mni mxi)) rest 2
                  | .error e => (c, .error e)
                else
                  clusterLoop args index hasValue value cfg
                    (setFlagData c flagName (.intF dflt 1 mn mx mni mxi)) rest 1
              | none =>
                clusterLoop args index hasValue value cfg
                  (setFlagData c flagName (.intF dflt 1 mn mx mni mxi)) rest 1
          else (c, .error (.nonBoolMustBeLast shortStr))
        | .strListF _ _ _ variadic =>
          if isLast then
            if hasValue then
              let c := appendStrListValue c flagName value
              let c := if variadic then { c with lastVariadicFlag := flagName } else c
              clusterLoop args index hasValue value cfg c rest 1
            else
              match parseSliceFlag c args index flagName cfg with
              | (c1, .ok consumedS) =>
                let c1 := if variadic then { c1 with lastVariadicFlag := flagName } else c1
                (c1, .ok consumedS)
              | (c1, .error e) => (c1, .error e)
          else (c, .error (.nonBoolMustBeLast shortStr))

/-- Digit-shorts branch of `parseShortFlag` (the `numberShortsMode` type
switch): an Int short bound to a run of digits takes the run length as
count, or an explicit/following value; a String short takes a value; other
kinds fall through (`inr`) with the configured mark already made. -/
def nsmScan (c0 : Cmd) (args : List String) (index : Nat) (shorts : String)
    (sChars : List Char) (hasValue : Bool) (value : String) :
    (Cmd × Except PErr Nat) ⊕ Cmd :=
  match lookupA c0.shortToName shorts with
  | some flagName =>
    match lookupFlag c0 flagName with
    | some f =>
      let c := setConfigured c0 flagName
      match f.data with
      | .intF dflt _ mn mx mni mxi =>
        if sChars.length > 1 then
          .inl (setFlagData c flagName
            (.intF dflt (Int.ofNat sChars.length) mn mx mni mxi), .ok 1)
        else if hasValue then
          match setIntValue flagName mn mx mni mxi value with
          | .ok v => .inl (setFlagData c flagName (.intF dflt v mn mx mni mxi), .ok 1)
          | .error e => .inl (c, .error e)
        else
          match args.get? (index + 1) with
          | some t =>
            if ¬strStartsWith t "-" then
              match setIntValue flagName mn mx mni mxi t with
              | .ok v => .inl (setFlagData c flagName (.intF dflt v mn mx mni mxi), .ok 2)
              | .error e => .inl (c, .error e)
            else .inl (setFlagData c flagName (.intF dflt 1 mn mx mni mxi), .ok 1)
          | none => .inl (setFlagData c flagName (.intF dflt 1 mn mx mni mxi), .ok 1)
      | .strF dflt _ enum =>
        if hasValue then
          match setStringValue flagName enum value with
          | .ok v => .inl (setFlagData c flagName (.strF dflt v enum), .ok 1)
          | .error e => .inl (c, .error e)
        else
          match args.get? (index + 1) with
          | none => .inl (c, .error (.flagNeedsValue shorts))
          | some t =>
            match setStringValue flagName enum t with
            | .ok v => .inl (setFlagData c flagName (.strF dflt v enum), .ok 2)
            | .error e => .inl (c, .error e)
      | _ => .inr c
    | none => .inr (setConfigured c0 flagName)
  | none => .inr c0

/-- Repeated-identical-short branch of `parseShortFlag`: a cluster of two
or more copies of one Int short becomes the count form (or the `=value`
form); anything else falls through (`inr`) to the cluster scan. -/
def allSameScan (c1 : Cmd) (sChars : List Char) (hasValue : Bool) (value : String) :
    (Cmd × Except PErr Nat) ⊕ Cmd :=
  match sChars with
  | firstChar :: _ :: _ =>
    if sChars.all (fun ch => ch = firstChar) then
      match lookupA c1.shortToName (String.singleton firstChar) with
      | some flagName =>
        match lookupFlag c1 flagName with
        | some f =>
          match f.data with
          | .intF dflt _ mn mx mni mxi =>
            let c := setConfigured c1 flagName
            if hasValue then
              match setIntValue flagName mn mx mni mxi value with
              | .ok v =>
                .inl (setFlagData c flagName (.intF dflt v mn mx mni mxi), .ok 1)
              | .error e => .inl (c, .error e)
            else
              .inl (setFlagData c flagName
                (.intF dflt (Int.ofNat sChars.length) mn mx mni mxi), .ok 1)
          | _ => .inr c1
        | none => .inr c1
      | none => .inr c1
    else .inr c1
  | _ => .inr c1

/-- Short-flag handling, translated from `parseShortFlag`: negative-number
reclassification, the digit-shorts branch, lone-short `=value` binding,
the repeated-identical-short Int count form, and the general cluster scan.
Branches that in Go fall through past a type switch (with the configured
mark already made) are modelled with an explicit `Sum`: `inl` is a
returned result, `inr` carries the fallen-through state. -/
def parseShortFlag (c0 : Cmd) (args : List String) (index : Nat) (numberShortsMode : Bool)
    (cfg : ParseCfg) : Cmd × Except PErr Nat :=
  let arg := (args.get? index).getD ""
  let (shorts, valOpt) := splitFirstEq (strDrop arg 1)
  let hasValue := valOpt.isSome
  let value := valOpt.getD ""
  let sChars := shorts.data
  let firstIsDigitOrDot : Bool :=
    match sChars with
    | ch :: _ => isDigitChar ch ∨ ch = '.'
    | [] => false
  let firstIsDigit : Bool :=
    match sChars with
    | ch :: _ => isDigitChar ch
    | [] => false
  if ¬numberShortsMode ∧ firstIsDigitOrDot then (c0, .error (.notAFlag arg))
  else
    let nsmOut : (Cmd × Except PErr Nat) ⊕ Cmd :=
      if numberShortsMode ∧ firstIsDigit then
        nsmScan c0 args index shorts sChars hasValue value
      else .inr c0
    match nsmOut with
    | .inl r => r
    | .inr c1 =>
      if hasValue ∧ sChars.length = 1 then
        match lookupA c1.shortToName shorts with
        | none => (c1, .error (.unknownShorthand shorts))
        | some flagName =>
          match lookupFlag c1 flagName with
          | none => (setConfigured c1 flagName, .error (.unsupportedFlagType flagName))
          | some f =>
            let c := setConfigured c1 flagName
            match f.data with
            | .boolF dflt _ =>
              match parseBoolValue value with
              | none => (c, .error (.invalidBoolValue shorts value))
              | some val => (setFlagData c flagName (.boolF dflt val), .ok 1)
            | .strF dflt _ enum =>
              match setStringValue flagName enum value with
              | .ok v => (setFlagData c flagName (.strF dflt v enum), .ok 1)
              | .error e => (c, .error e)
            | .intF dflt _ mn mx mni mxi =>
              match setIntValue flagName mn mx mni mxi value with
              | .ok v => (setFlagData c flagName (.intF dflt v mn mx mni mxi), .ok 1)
              | .error e => (c, .error e)
            | .strListF _ _ _ variadic =>
              let c := appendStrListValue c flagName value
              if variadic then ({ c with lastVariadicFlag := flagName }, .ok 1)
              else (c, .ok 1)
      else
        match allSameScan c1 sChars hasValue value with
        | .inl r => r
        | .inr c2 => clusterLoop args index hasValue value cfg c2 sChars 1

/-- Flag-token dispatch, from `parseFlag`. -/
def parseFlag (c : Cmd) (args : List String) (index : Nat) (numberShortsMode : Bool)
    (cfg : ParseCfg) : Cmd × Except PErr Nat :=
  let arg := (args.get? index).getD ""
  if strStartsWith arg "--" then parseLongFlag c args index cfg
  else if strStartsWith arg "-" then parseShortFlag c args index numberShortsMode cfg
  else (c, .error (.invalidFlag arg))

/-- Variadic stickiness decision for a positional token, translated from
`handleVariadicSliceFlag`.  First component: whether the flag handled the
token (Go additionally returns the append error, which is always nil for
string lists, the only list kind modelled). -/
def handleVariadicSliceFlag (c : Cmd) (name : String) (positionalOnlyMode : Bool)
    (appendF : Cmd → Cmd) : Bool × Cmd :=
  if c.lastVariadicFlag = name then (true, appendF (setConfigured c name))
  else if positionalOnlyMode ∧ c.configured.contains name then (true, appendF c)
  else if c.sawFlag ∧ c.configured.contains name then (false, c)
  else if ¬c.sawFlag ∨ c.lastVariadicFlag = "" then
    (true, appendF { setConfigured c name with lastVariadicFlag := name })
  else (false, c)

/-- Positional-order scan of `assignPositionalWithMode`: the first
not-yet-configured, non-flag-only flag in positional order receives the
token, with variadic list flags going through the stickiness rule.  The
exhausted case is the `Too many positional arguments` error (the Go
function also builds an unused `boolFlagNames` list there, dead code not
modelled). -/
def assignPosLoop (value : String) (positionalOnlyMode : Bool) :
    Cmd → List String → Cmd × Option PErr
  | c, [] => (c, some (.tooManyPositional value))
  | c, name :: rest =>
    match lookupFlag c name with
    | none => assignPosLoop value positionalOnlyMode c rest
    | some f =>
      match f.data with
      | .strF dflt _ enum =>
        if f.flagOnly then assignPosLoop value positionalOnlyMode c rest
        else if c.configured.contains name then assignPosLoop value positionalOnlyMode c rest
        else
          let c := setConfigured c name
          match setStringValue name enum value with
          | .ok v => (setFlagData c name (.strF dflt v enum), none)
          | .error e => (c, some e)
      | .intF dflt _ mn mx mni mxi =>
        if f.flagOnly then assignPosLoop value positionalOnlyMode c rest
        else if c.configured.contains name then assignPosLoop value positionalOnlyMode c rest
        else
          let c := setConfigured c name
          match setIntValue name mn mx mni mxi value with
          | .ok v => (setFlagData c name (.intF dflt v mn mx mni mxi), none)
          | .error e => (c, some e)
      | .boolF dflt _ =>
        if f.flagOnly then assignPosLoop value positionalOnlyMode c rest
        else if c.configured.contains name then assignPosLoop value positionalOnlyMode c rest
        else
          let c := setConfigured c name
          match strconvParseBool value with
          | none => (c, some (.invalidBoolPositional name value))
          | some val => (setFlagData c name (.boolF dflt val), none)
      | .strListF _ _ _ variadic =>
        if f.flagOnly then assignPosLoop value positionalOnlyMode c rest
        else if variadic then
          match handleVariadicSliceFlag c name positionalOnlyMode
              (fun c' => appendStrListValue c' name value) with
          | (true, c') => (c', none)
          | (false, _) => assignPosLoop value positionalOnlyMode c rest
        else if c.configured.contains name then assignPosLoop value positionalOnlyMode c rest
        else
          let c := setConfigured c name
          (appendStrListValue c name value, none)

/-- Positional assignment entry point, from `assignPositionalWithMode`. -/
def assignPositionalWithMode (c : Cmd) (value : String) (positionalOnlyMode : Bool) :
    Cmd × Option PErr :=
  assignPosLoop value positionalOnlyMode c c.positional

/-- Positional assignment in normal mode, from `assignPositional`. -/
def assignPositional (c : Cmd) (value : String) : Cmd × Option PErr :=
  assignPositionalWithMode c value false

/-- Token loop of `parseWithPreserveState`, one iteration per consumed
token run.  The fuel argument only bounds the recursion (every successful
`parseFlag` consumes at least one token); callers supply
`args.length + 1`, which is always sufficient.  A token naming a
subcommand returns a `subcommandDescend` sentinel in place of the Go tail
call into the child's parse. -/
def parseLoop (cfg : ParseCfg) (numberShortsMode : Bool) (args : List String) :
    Nat → Cmd → Nat → Bool → Cmd × Option PErr
  | 0, c, _, _ => (c, some (.unmodelled "fuel exhausted"))
  | fuel + 1, c, i, seenDashDash =>
    match args.get? i with
    | none => (c, none)
    | some arg =>
      if arg = "--" ∧ ¬seenDashDash then
        parseLoop cfg numberShortsMode args fuel c (i + 1) true
      else if seenDashDash then
        match assignPositionalWithMode c arg true with
        | (c', none) => parseLoop cfg numberShortsMode args fuel c' (i + 1) true
        | (c', some e) =>
          if cfg.ignoreUnknown then
            parseLoop cfg numberShortsMode args fuel
              { c' with unknownArgs := c'.unknownArgs ++ [arg] } (i + 1) true
          else (c', some e)
      else if ¬strStartsWith arg "-" ∧ c.subCmds.contains arg then
        (c, some (.subcommandDescend arg))
      else if strStartsWith arg "-" then
        match parseFlag c args i numberShortsMode cfg with
        | (c1, .ok consumed) =>
          parseLoop cfg numberShortsMode args fuel
            { c1 with sawFlag := true, lastVariadicFlag := "" } (i + consumed) seenDashDash
        | (c1, .error e) =>
          if e = .notAFlag arg then
            match assignPositional c1 arg with
            | (c2, none) => parseLoop cfg numberShortsMode args fuel c2 (i + 1) seenDashDash
            | (c2, some e2) =>
              if cfg.ignoreUnknown then
                parseLoop cfg numberShortsMode args fuel
                  { c2 with unknownArgs := c2.unknownArgs ++ [arg] } (i + 1) seenDashDash
              else (c2, some e2)
          else if cfg.variadicUnknownFlags then
            let variadicFlag :=
              if c1.lastVariadicFlag ≠ "" then c1.lastVariadicFlag
              else findNextUnassignedVariadicPositional c1
            if variadicFlag ≠ "" then
              match assignPositional c1 arg with
              | (c2, none) =>
                parseLoop cfg numberShortsMode args fuel
                  { c2 with lastVariadicFlag := variadicFlag } (i + 1) seenDashDash
              | (c2, some e2) =>
                if cfg.ignoreUnknown then
                  parseLoop cfg numberShortsMode args fuel
                    { c2 with unknownArgs := c2.unknownArgs ++ [arg] } (i + 1) seenDashDash
                else (c2, some e2)
            else if cfg.ignoreUnknown then
              parseLoop cfg numberShortsMode args fuel
                { c1 with unknownArgs := c1.unknownArgs ++ [arg] } (i + 1) seenDashDash
            else (c1, some e)
          else if cfg.ignoreUnknown then
            parseLoop cfg numberShortsMode args fuel
              { c1 with unknownArgs := c1.unknownArgs ++ [arg] } (i + 1) seenDashDash
          else (c1, some e)
      else
        match assignPositional c arg with
        | (c2, none) => parseLoop cfg numberShortsMode args fuel c2 (i + 1) seenDashDash
        | (c2, some e2) =>
          if cfg.ignoreUnknown then
            parseLoop cfg numberShortsMode args fuel
              { c2 with unknownArgs := c2.unknownArgs ++ [arg] } (i + 1) seenDashDash
          else (c2, some e2)

/-- Registration-order flag listing, from `getAllFlagsInRegistrationOrder`:
positional flags first, then non-positional ones. -/
def getAllFlagsInRegistrationOrder (c : Cmd) : List String :=
  c.positional ++ c.nonPositional

/-- Value presence test, from `flagHasValue`: explicitly configured, or a
default is set. -/
def flagHasValue (c : Cmd) (name : String) : Bool :=
  if c.configured.contains name then true
  else
    match lookupFlag c name with
    | some f =>
      match f.data with
      | .boolF dflt _ => dflt.isSome
      | .strF dflt _ _ => dflt.isSome
      | .intF dflt _ _ _ _ _ => dflt.isSome
      | .strListF dflt _ _ _ => dflt.isSome
    | none => false

/-- Relational participation test, from
`flagConfiguredForRelationalConstraints`: a bool flag participates exactly
when its bound value is true (the value pointer is always non-nil after
registration); any other kind participates when it has a value. -/
def flagConfiguredForRelationalConstraints (c : Cmd) (name : String) : Bool :=
  match lookupFlag c name with
  | some f =>
    match f.data with
    | .boolF _ v => v
    | _ => flagHasValue c name
  | none => false

/-- First unsatisfied name of a `Requires` list, for the requires check in
`validateRequired`. -/
def firstUnmetRequire (c : Cmd) (name : String) : List String → Option PErr
  | [] => none
  | req :: rest =>
    if ¬flagConfiguredForRelationalConstraints c req then
      some (.requiresViolation name req)
    else firstUnmetRequire c name rest

/-- Search for another configured flag whose `Excludes` names this flag,
the second half of `checkExclusion`. -/
def exclusionByOthers (c : Cmd) (flagName : String) : List String → Option PErr
  | [] => none
  | otherName :: rest =>
    if otherName = flagName ∨ ¬flagConfiguredForRelationalConstraints c otherName then
      exclusionByOthers c flagName rest
    else
      match lookupFlag c otherName with
      | none => exclusionByOthers c flagName rest
      | some otherFlag =>
        match otherFlag.excludes with
        | some exs =>
          if exs.contains flagName then some (.excludesViolation otherName flagName)
          else exclusionByOthers c flagName rest
        | none => exclusionByOthers c flagName rest

/-- Exclusion check for one flag, translated from `checkExclusion`: a flag
participating relationally may not have a participating flag in its own
`Excludes`, nor be named by the `Excludes` of another participating flag. -/
def checkExclusion (c : Cmd) (flagName : String) : Option PErr :=
  if ¬flagConfiguredForRelationalConstraints c flagName then none
  else
    let ownViolation : Option PErr :=
      match lookupFlag c flagName with
      | some f =>
        match f.excludes with
        | some exs =>
          match exs.find? (fun excluded => flagConfiguredForRelationalConstraints c excluded) with
          | some excluded => some (.excludesViolation flagName excluded)
          | none => none
        | none => none
      | none => none
    match ownViolation with
    | some e => some e
    | none => exclusionByOthers c flagName (getAllFlagsInRegistrationOrder c)

/-- Relational (requires/excludes) pass of `validateRequired`, over flags
in registration order. -/
def relationalPass (c : Cmd) : List String → Option PErr
  | [] => none
  | name :: rest =>
    match lookupFlag c name with
    | none => relationalPass c rest
    | some f =>
      let reqErr : Option PErr :=
        if flagConfiguredForRelationalConstraints c name then
          match f.requiresF with
          | some reqs => firstUnmetRequire c name reqs
          | none => none
        else none
      match reqErr with
      | some e => some e
      | none =>
        match checkExclusion c name with
        | some e => some e
        | none => relationalPass c rest

/-- Bypass detection of `validateRequired`: some configured flag carries
`BypassValidation` (the Go per-kind switch performs the same field read in
every case). -/
def hasBypassConfigured (c : Cmd) : Bool :=
  c.configured.any (fun name =>
    match lookupFlag c name with
    | some f => f.bypassValidation
    | none => false)

/-- Requiredness test, from `isFlagRequired`: bool flags and variadic list
flags are never required; otherwise a flag is required when it is neither
optional nor defaulted. -/
def isFlagRequired (c : Cmd) (name : String) : Bool :=
  match lookupFlag c name with
  | some f =>
    match f.data with
    | .boolF _ _ => false
    | .strF dflt _ _ => ¬f.optional ∧ dflt.isNone
    | .intF dflt _ _ _ _ _ => ¬f.optional ∧ dflt.isNone
    | .strListF dflt _ _ variadic => ¬variadic ∧ ¬f.optional ∧ dflt.isNone
  | none => false

/-- Moot-by-exclusion test, from `isFlagExcludedByConfiguredFlag`: some
other explicitly configured flag excludes this one (bool excluders count
only when true). -/
def isFlagExcludedByConfiguredFlag (c : Cmd) (flagName : String) : Bool :=
  c.configured.any (fun configuredFlagName =>
    if configuredFlagName = flagName then false
    else
      match lookupFlag c configuredFlagName with
      | some f =>
        let excludes : Option (List String) :=
          match f.data with
          | .boolF _ v => if v then f.excludes else none
          | _ => f.excludes
        match excludes with
        | some exs => exs.contains flagName
        | none => false
      | none => false)

/-- Missing-required collection of `validateRequired`, positional flags
first and then non-positional ones, skipping flags mooted by an exclusion. -/
def missingRequiredNames (c : Cmd) : List String :=
  (c.positional.filter (fun name =>
    isFlagRequired c name ∧ ¬c.configured.contains name ∧
      ¬isFlagExcludedByConfiguredFlag c name)) ++
  (c.nonPositional.filter (fun name =>
    isFlagRequired c name ∧ ¬c.configured.contains name ∧
      ¬isFlagExcludedByConfiguredFlag c name))

/-- Post-scan validation, translated from `validateRequired`: first the
relational pass in registration order, then the bypass check (which skips
only what comes after it), then the missing-required pass. -/
def validateRequired (c : Cmd) : Option PErr :=
  match relationalPass c (getAllFlagsInRegistrationOrder c) with
  | some e => some e
  | none =>
    if hasBypassConfigured c then none
    else
      match missingRequiredNames c with
      | [] => none
      | missing => some (.missingRequired missing)

/-- Constraint-reference validation before parsing, from
`validateConstraintReferences`: every name in a `Requires` or `Excludes`
list must denote a registered flag. -/
def findUndefinedRef (validFlags : List String) : List (String × RaFlag) → Option PErr
  | [] => none
  | (_, f) :: rest =>
    let reqBad : Option String :=
      match f.requiresF with
      | some reqs => reqs.find? (fun reqName => ¬validFlags.contains reqName)
      | none => none
    match reqBad with
    | some reqName => some (.undefinedFlagRef reqName)
    | none =>
      let excBad : Option String :=
        match f.excludes with
        | some exs => exs.find? (fun excName => ¬validFlags.contains excName)
        | none => none
      match excBad with
      | some excName => some (.undefinedFlagRef excName)
      | none => findUndefinedRef validFlags rest

def validateConstraintReferences (c : Cmd) : Option PErr :=
  findUndefinedRef (c.flags.map (fun p => p.1)) c.flags

/-- Pre-parse validation, from `validateBeforeParsing`. -/
def validateBeforeParsing (c : Cmd) : Option PErr :=
  validateConstraintReferences c

/-- Required-flag presence, from `hasRequiredFlags`. -/
def hasRequiredFlags (c : Cmd) : Bool :=
  c.positional.any (fun name => isFlagRequired c name) ∨
  c.nonPositional.any (fun name => isFlagRequired c name)

/-- Post-loop help-token scan of `parseWithPreserveState`: the first
`--help` or `-h` token wins, `--help` selecting long help. -/
def scanHelpArgs : List String → Option Bool
  | [] => none
  | a :: rest =>
    if a = "--help" then some true
    else if a = "-h" then some false
    else scanHelpArgs rest

/-- Lazy help-flag registration at the top of `parseWithPreserveState`:
when help is enabled and no flag named `help` exists, a global optional
Bool flag `help` with short `h` is registered; the registration error is
discarded, keeping whatever partial mutations registration made. -/
def addHelpFlag (c : Cmd) : Cmd :=
  if c.helpEnabled ∧ (lookupFlag c "help").isNone then
    (registerFlag
      { name := "help", short := "h", usage := "Print usage string.",
        optional := true, data := .boolF none false }
      c true false).1
  else c

/-- Top-level parse, translated from `parseWithPreserveState` with
`preserveConfigured = false` (the fresh-parse entry used by `parse`;
subcommand recursion, which preserves configured state, surfaces as the
`subcommandDescend` sentinel from the token loop).  Returns the final
command state and the error or sentinel, `none` meaning success. -/
def parseCmd (c : Cmd) (args : List String) (cfg : ParseCfg) : Cmd × Option PErr :=
  let c := { c with configured := [], unknownArgs := [], lastVariadicFlag := "", sawFlag := false }
  let c := addHelpFlag c
  match validateBeforeParsing c with
  | some e => (c, some e)
  | none =>
    let c := setDefaults c
    if cfg.dump then (c, some .dumpInvoked)
    else if c.autoHelpOnNoArgs ∧ args.isEmpty ∧ hasRequiredFlags c then
      (c, some (.helpInvoked false true))
    else
      let numberShortsMode := hasNumberShorts c
      match parseLoop cfg numberShortsMode args (args.length + 1) c 0 false with
      | (c', some e) => (c', some e)
      | (c', none) =>
        if c'.helpEnabled then
          match scanHelpArgs args with
          | some isLong => (c', some (.helpInvoked isLong false))
          | none => (c', validateRequired c')
        else (c', validateRequired c')

/-- Completion directive bit: ignore results (error). -/
def completionDirectiveError : Nat := 1

/-- Completion directive bit: no trailing space. -/
def completionDirectiveNoSpace : Nat := 2

/-- Completion directive bit: no file-completion fallback. -/
def completionDirectiveNoFileComp : Nat := 4

/-- Completion directive: default behaviour with file-completion fallback. -/
def completionDirectiveDefault : Nat := 0

/-- Lexicographic character-list comparison, the order used by
`sort.Strings` (byte order; identical to rune order on the ASCII
candidate strings involved). -/
def strLeChars : List Char → List Char → Bool
  | [], _ => true
  | _ :: _, [] => false
  | a :: as, b :: bs =>
    if a < b then true
    else if b < a then false
    else strLeChars as bs

/-- Lexicographic string comparison for `sortStrings`. -/
def strLe (a b : String) : Bool :=
  strLeChars a.data b.data

/-- Insertion into a sorted string list, for `sortStrings`. -/
def insertSorted (s : String) : List String → List String
  | [] => [s]
  | x :: xs => if strLe s x then s :: x :: xs else x :: insertSorted s xs

/-- Lexicographic string sort, modelling `sort.Strings`. -/
def sortStrings (l : List String) : List String :=
  l.foldr insertSorted []

/-- Positional-candidate scan of `completeSubcommandsAndPositionals`: find
the active positional (skipping `positionalCount` consumed non-variadic
ones; a variadic positional is always active once reached), then extend
the candidates from its completion callback or enum, or select the
file-completion fallback, stopping at the first eligible positional.  The
callback's directive is honoured only when there are no subcommand-name
candidates, and the file fallback only when no candidates were collected
at all. -/
def completePositionalLoop (c : Cmd) (toComplete : String) (positionalCount subCmdCount : Nat) :
    List String → Nat → List String → Nat → List String × Nat
  | [], _, candidates, directive => (candidates, directive)
  | name :: rest, skipped, candidates, directive =>
    match lookupFlag c name with
    | none => completePositionalLoop c toComplete positionalCount subCmdCount rest skipped candidates directive
    | some f =>
      if f.flagOnly then
        completePositionalLoop c toComplete positionalCount subCmdCount rest skipped candidates directive
      else if ¬isVariadicFlag f ∧ skipped < positionalCount then
        completePositionalLoop c toComplete positionalCount subCmdCount rest (skipped + 1) candidates directive
      else
        match f.completionFunc with
        | some fn =>
          let (vals, dir) := fn toComplete
          (candidates ++ vals, if subCmdCount = 0 then dir else directive)
        | none =>
          match f.data with
          | .strF _ _ (some enumVals) =>
            (candidates ++ enumVals.filter (fun val => strStartsWith val toComplete), directive)
          | _ =>
            (candidates, if candidates.isEmpty then completionDirectiveDefault else directive)

/-- Subcommand-name and positional completion, translated from
`completeSubcommandsAndPositionals`: matching subcommand names (when
included), then the active positional's candidates, sorted, with the
no-file-completion directive unless the fallback rules above downgrade
it. -/
def completeSubcommandsAndPositionals (c : Cmd) (toComplete : String)
    (positionalCount : Nat) (includeSubcmds : Bool) : List String × Nat :=
  let candidates :=
    if includeSubcmds then
      c.subCmds.filter (fun name => strStartsWith name toComplete)
    else []
  let subCmdCount := candidates.length
  let (candidates, directive) :=
    completePositionalLoop c toComplete positionalCount subCmdCount
      c.positional 0 candidates completionDirectiveNoFileComp
  (sortStrings candidates, directive)

/-- Default parse configuration (no options). -/
def defaultCfg : ParseCfg := {}

/-- Scenario command for the bypass-validation property: optional string
`a` requiring `b`, optional string `b`, and bool `d` registered with the
bypass-validation option. -/
def cmdC1 : Cmd :=
  let c := { newCmd "c1" with helpEnabled := false }
  let c := (registerFlag
    { name := "a", optional := true, requiresF := some ["b"], data := .strF none "" none }
    c false false).1
  let c := (registerFlag { name := "b", optional := true, data := .strF none "" none } c false false).1
  let c := (registerFlag { name := "d", data := .boolF none false } c false true).1
  c

/-- Scenario command for the relational-participation property: optional
string `a` requiring `b`, optional string `b`. -/
def cmdC2 : Cmd :=
  let c := { newCmd "c2" with helpEnabled := false }
  let c := (registerFlag
    { name := "a", optional := true, requiresF := some ["b"], data := .strF none "" none }
    c false false).1
  let c := (registerFlag { name := "b", optional := true, data := .strF none "" none } c false false).1
  c

/-- Scenario command with a Bool `a` requiring string `b`. -/
def cmdC2b : Cmd :=
  let c := { newCmd "c2b" with helpEnabled := false }
  let c := (registerFlag
    { name := "a", requiresF := some ["b"], data := .boolF none false } c false false).1
  let c := (registerFlag { name := "b", optional := true, data := .strF none "" none } c false false).1
  c

/-- Scenario command with a defaulted string-list flag `f` (default
`["a"]`, no separator, non-variadic). -/
def cmdC3 : Cmd :=
  let c := { newCmd "c3" with helpEnabled := false }
  let c := (registerFlag
    { name := "f", optional := true, data := .strListF (some ["a"]) [] none false }
    c false false).1
  c

/-- Scenario command with scalar string `arg1` and variadic string list
`arg2`, in that registration order. -/
def cmdC4 : Cmd :=
  let c := { newCmd "c4" with helpEnabled := false }
  let c := (registerFlag { name := "arg1", optional := true, data := .strF none "" none } c false false).1
  let c := (registerFlag { name := "arg2", data := .strListF none [] none true } c false false).1
  c

/-- Scenario command with bool shorts `a`,`b`, string short `c` and int
short `d`. -/
def cmdC5 : Cmd :=
  let c := { newCmd "c5" with helpEnabled := false }
  let c := (registerFlag { name := "alpha", short := "a", optional := true, data := .boolF none false } c false false).1
  let c := (registerFlag { name := "beta", short := "b", optional := true, data := .boolF none false } c false false).1
  let c := (registerFlag { name := "gamma", short := "c", optional := true, data := .strF none "" none } c false false).1
  let c := (registerFlag { name := "delta", short := "d", optional := true, data := .intF none 0 none none none none } c false false).1
  c

/-- Scenario command with subcommands add, apply and remove and no
positionals. -/
def cmdC7 : Cmd :=
  { newCmd "c7" with subCmds := ["add", "apply", "remove"] }

/-- Scenario command with a non-variadic string-list flag `f`. -/
def cmdC8 : Cmd :=
  let c := { newCmd "c8" with helpEnabled := false }
  let c := (registerFlag { name := "f", optional := true, data := .strListF none [] none false } c false false).1
  c

/-- Scenario command with help enabled (the default) and a user flag
already holding the short `h`. -/
def cmdC10 : Cmd :=
  let c := newCmd "c10"
  let c := (registerFlag { name := "verbose", short := "h", optional := true, data := .strF none "" none } c false false).1
  c

/-- Specification-side participation predicate, following the spec's words:
a flag counts as configured for relational purposes if it is a non-bool
with any value (explicit or defaulted), or a bool flag only when true.
Stated independently of the implementation for comparison with
`flagConfiguredForRelationalConstraints`. -/
def specRelationallyConfigured (c : Cmd) (name : String) : Bool :=
  match lookupFlag c name with
  | some f =>
    match f.data with
    | .boolF _ v => v
    | .strF dflt _ _ => c.configured.contains name ∨ dflt.isSome
    | .intF dflt _ _ _ _ _ => c.configured.contains name ∨ dflt.isSome
    | .strListF dflt _ _ _ => c.configured.contains name ∨ dflt.isSome
  | none => false

/-- Evolution of a defaulted list flag's bound value over the user-supplied
raw values of one parse: the bound value starts at the default (set by
`setDefaults`) and each raw value goes through `appendStringSliceValue`. -/
def foldListFlag (d : List String) (sep : Option String) (vals : List String) : List String :=
  vals.foldl (fun cur v => appendStringSliceValue (some d) sep cur v) d

/-- Table preservation relation used for scan-phase invariants: the scan
never adds or removes flag-table entries and never touches the short-name
table. -/
def preservesTables (c c' : Cmd) : Prop :=
  c'.flags.map Prod.fst = c.flags.map Prod.fst ∧ c'.shortToName = c.shortToName

/-- Registration sequence for the short-collision shadowing scenario: a
global string flag `gname` with short `s`, then a non-global string flag
`fname` reusing the same short. -/
def globalShortShadowSetup (gname fname s : String) : Cmd × Option RegErr :=
  let c0 := newCmd "app"
  let c1 := (registerFlag { name := gname, short := s, optional := true, data := .strF none "" none } c0 true false).1
  registerFlag { name := fname, short := s, optional := true, data := .strF none "" none } c1 false false

/-- Intermediate state of the cluster scan on `cmdC5` after the two bool
shorts `a` and `b` have been set true (shorthand for cluster theorems). -/
def c5ab : Cmd :=
  setFlagData (setConfigured (setFlagData (setConfigured cmdC5 "alpha") "alpha"
    (FlagData.boolF none true)) "beta") "beta" (FlagData.boolF none true)

/-- Claim C1, as stated, is false: with the bypass flag `d` configured, a
Requires violation between `a` and `b` is still reported, because the
relational pass of `validateRequired` runs before the bypass check. -/
theorem bypassValidation_claim_counterexample :
    (parseCmd cmdC1 ["--a", "x", "--d"] defaultCfg).2 =
      some (.requiresViolation "a" "b") ∧
    hasBypassConfigured (parseCmd cmdC1 ["--a", "x", "--d"] defaultCfg).1 = true :=
  ⟨rfl, rfl⟩

/-- Claim C1 (amended): a configured flag carrying BypassValidation makes
the post-scan validation skip only the missing-required pass; the verdict
is exactly that of the relational (Requires/Excludes) pass, so relational
violations are still reported while missing-required errors are not. -/
theorem bypassValidation_skips_only_missing_required (c : Cmd)
    (h : hasBypassConfigured c = true) :
    validateRequired c = relationalPass c (getAllFlagsInRegistrationOrder c) := by
  unfold validateRequired
  cases hrel : relationalPass c (getAllFlagsInRegistrationOrder c) with
  | none => simp [h]
  | some e => simp

/-- Witness for the amended C1 theorem at a concrete parse state with a
configured bypass flag. -/
theorem bypassValidation_skips_only_missing_required_witness :
    hasBypassConfigured (parseCmd cmdC1 ["--d"] defaultCfg).1 = true ∧
    validateRequired (parseCmd cmdC1 ["--d"] defaultCfg).1 =
      relationalPass (parseCmd cmdC1 ["--d"] defaultCfg).1
        (getAllFlagsInRegistrationOrder (parseCmd cmdC1 ["--d"] defaultCfg).1) :=
  ⟨rfl, bypassValidation_skips_only_missing_required _ rfl⟩

/-- Claim C3, as stated, is false: with Default `["a"]`, supplying `a`
then `b` yields the bound list `["b"]`, because the first append makes the
bound list equal to the default again, so the second value also replaces
wholesale instead of being appended; the user-supplied elements are not
all preserved. -/
theorem listDefault_claim_counterexample :
    (parseCmd cmdC3 ["--f=a", "--f=b"] defaultCfg).2 = none ∧
    flagListValue (parseCmd cmdC3 ["--f=a", "--f=b"] defaultCfg).1 "f" = some ["b"] ∧
    (["b"] : List String) ≠ ["a", "b"] :=
  ⟨rfl, rfl, by decide⟩

/-- Claim C3 (amended): on a list flag with a non-nil Default, a
user-supplied value replaces the bound list wholesale whenever that list
is element-wise equal to the default (in particular the first user value
replaces the default), and is appended otherwise; consequently, whenever
no accumulated run of user-supplied elements coincides with the default
list, the final bound value is exactly the concatenation of the
(separator-split) user values, in order and free of default elements. -/
theorem listDefault_replacement (d : List String) (sep : Option String) :
    (∀ cur v, appendStringSliceValue (some d) sep cur v =
      (if cur = d then [] else cur) ++ splitParts sep v) ∧
    (∀ vals : List String, vals ≠ [] →
      (∀ k, 0 < k → k < vals.length → ((vals.take k).map (splitParts sep)).flatten ≠ d) →
      foldListFlag d sep vals = (vals.map (splitParts sep)).flatten) := by
  constructor
  · intro cur v
    by_cases h : cur = d <;> simp [appendStringSliceValue, h]
  · intro vals
    induction vals using List.reverseRecOn with
    | nil => intro h; exact absurd rfl h
    | append_singleton vs v ih =>
      intro _ hk
      rw [foldListFlag, List.foldl_append]
      rcases eq_or_ne vs [] with hvs | hvs
      · subst hvs
        simp [appendStringSliceValue]
      · have hvslen : 0 < vs.length := List.length_pos.mpr hvs
        have ihres : foldListFlag d sep vs = (vs.map (splitParts sep)).flatten := by
          refine ih hvs (fun k hk1 hk2 => ?_)
          have htake : (vs ++ [v]).take k = vs.take k :=
            List.take_append_of_le_length (by omega)
          have := hk k hk1 (by simp; omega)
          rwa [htake] at this
        have hfold : List.foldl (fun cur v => appendStringSliceValue (some d) sep cur v) d vs =
            (vs.map (splitParts sep)).flatten := ihres
        rw [hfold]
        have hne : (vs.map (splitParts sep)).flatten ≠ d := by
          have htake : (vs ++ [v]).take vs.length = vs := List.take_left vs [v]
          have := hk vs.length hvslen (by simp)
          rwa [htake] at this
        simp [appendStringSliceValue, hne]

/-- Witness for the amended C3 theorem: default `["a"]`, user values `x`
then `y`, final bound list `["x", "y"]`. -/
theorem listDefault_replacement_witness :
    foldListFlag ["a"] none ["x", "y"] = ["x", "y"] := by
  have h := (listDefault_replacement ["a"] none).2 ["x", "y"] (by decide)
    (fun k hk1 hk2 => by
      have hk2' : k < 2 := by simpa using hk2
      have hk3 : k = 1 := by omega
      subst hk3
      decide)
  exact h.trans (by decide)

/-- Directive stability of the positional completion scan: with at least
one subcommand-name candidate present (nonzero count and nonempty
candidate accumulator), the scan never changes the directive. -/
theorem completePositionalLoop_keeps_directive (c : Cmd) (tc : String) (pc sc : Nat)
    (hsc : sc ≠ 0) :
    ∀ (l : List String) (skipped : Nat) (cands : List String) (dir : Nat),
      cands ≠ [] → (completePositionalLoop c tc pc sc l skipped cands dir).2 = dir := by
  intro l
  induction l with
  | nil => intro skipped cands dir _; rfl
  | cons name rest ih =>
    intro skipped cands dir hc
    simp only [completePositionalLoop]
    cases h : lookupFlag c name with
    | none => exact ih skipped cands dir hc
    | some f =>
      dsimp only
      by_cases hf : f.flagOnly = true
      · rw [if_pos hf]
        exact ih skipped cands dir hc
      · rw [if_neg hf]
        by_cases hskip : ¬isVariadicFlag f = true ∧ skipped < pc
        · rw [if_pos hskip]
          exact ih (skipped + 1) cands dir hc
        · rw [if_neg hskip]
          cases hcf : f.completionFunc with
          | some fn => simp [hcf, hsc]
          | none =>
            cases hd : f.data with
            | strF dflt v enum =>
              cases enum with
              | some enumVals => simp [hcf, hd]
              | none => simp [hcf, hd, List.isEmpty_iff, hc]
            | boolF dflt v => simp [hcf, hd, List.isEmpty_iff, hc]
            | intF dflt v mn mx mni mxi => simp [hcf, hd, List.isEmpty_iff, hc]
            | strListF dflt v sep vard => simp [hcf, hd, List.isEmpty_iff, hc]

/-- Claim C7: completing `a` against subcommands add/apply/remove yields
exactly add and apply with the no-file-completion directive; and in
general, whenever any subcommand-name candidate exists, the merged
directive stays no-file-completion regardless of what directive the active
positional's completion callback requests. -/
theorem completion_subcommand_directive_merge :
    completeSubcommandsAndPositionals cmdC7 "a" 0 true =
      (["add", "apply"], completionDirectiveNoFileComp) ∧
    (∀ (c : Cmd) (tc : String) (pc : Nat),
      c.subCmds.filter (fun n => strStartsWith n tc) ≠ [] →
      (completeSubcommandsAndPositionals c tc pc true).2 = completionDirectiveNoFileComp) := by
  constructor
  · decide
  · intro c tc pc hne
    unfold completeSubcommandsAndPositionals
    simp only [if_true]
    have hlen : (c.subCmds.filter (fun n => strStartsWith n tc)).length ≠ 0 := by
      simpa [List.length_eq_zero] using hne
    have h := completePositionalLoop_keeps_directive c tc pc
      (c.subCmds.filter (fun n => strStartsWith n tc)).length hlen
      c.positional 0 (c.subCmds.filter (fun n => strStartsWith n tc))
      completionDirectiveNoFileComp hne
    simpa using h

/-- Witness for the C7 directive-merge theorem at the concrete add/apply
command. -/
theorem completion_subcommand_directive_merge_witness :
    (completeSubcommandsAndPositionals cmdC7 "a" 0 true).2 = completionDirectiveNoFileComp :=
  completion_subcommand_directive_merge.2 cmdC7 "a" 0 (by decide)

/-- Claim C2: a flag participates in Requires/Excludes checks exactly when
it is a non-bool flag with a value (explicitly supplied or defaulted) or a
bool flag whose bound value is true; and concretely, with `a` requiring
`b`: only `a` supplied errors, both supplied succeeds, and a false bool
`a` with only `b` supplied succeeds. -/
theorem relational_participation :
    (∀ (c : Cmd) (name : String),
      flagConfiguredForRelationalConstraints c name = specRelationallyConfigured c name) ∧
    (parseCmd cmdC2 ["--a", "x"] defaultCfg).2 = some (.requiresViolation "a" "b") ∧
    (parseCmd cmdC2 ["--a", "x", "--b", "y"] defaultCfg).2 = none ∧
    (parseCmd cmdC2b ["--b", "y"] defaultCfg).2 = none ∧
    flagBoolValue (parseCmd cmdC2b ["--b", "y"] defaultCfg).1 "a" = some false := by
  refine ⟨?_, rfl, rfl, rfl, rfl⟩
  intro c name
  unfold flagConfiguredForRelationalConstraints specRelationallyConfigured flagHasValue
  cases h : lookupFlag c name with
  | none => rfl
  | some f =>
    dsimp only
    cases hd : f.data with
    | boolF dflt v => rfl
    | strF dflt v enum =>
      cases hc : c.configured.contains name <;> simp [hc]
    | intF dflt v mn mx mni mxi =>
      cases hc : c.configured.contains name <;> simp [hc]
    | strListF dflt v sep vard =>
      cases hc : c.configured.contains name <;> simp [hc]

/-- Characterization of the variadic consumption loop (in non-permissive
mode): it appends exactly the leading run of non-`-`-prefixed tokens and
counts them on top of the initial consumed count. -/
theorem sliceConsumeLoop_characterization (fname : String) (cfg : ParseCfg)
    (hvuf : cfg.variadicUnknownFlags = false) :
    ∀ (l : List String) (c : Cmd) (consumed : Nat),
      sliceConsumeLoop fname cfg c l consumed =
        ((l.takeWhile (fun a => !strStartsWith a "-")).foldl
          (fun c' a => appendStrListValue c' fname a) c,
         .ok (consumed + (l.takeWhile (fun a => !strStartsWith a "-")).length)) := by
  intro l
  induction l with
  | nil => intro c consumed; simp [sliceConsumeLoop]
  | cons a rest ih =>
    intro c consumed
    by_cases ha : strStartsWith a "-" = true
    · simp [sliceConsumeLoop, ha, hvuf]
    · have ha' : strStartsWith a "-" = false := by
        cases hb : strStartsWith a "-" <;> simp_all
      simp only [sliceConsumeLoop, ha', List.takeWhile_cons, Bool.not_false, if_true,
        Bool.false_eq_true, if_false, ih]
      simp only [List.foldl_cons, List.length_cons, Prod.mk.injEq, Except.ok.injEq]
      exact ⟨trivial, by omega⟩

/-- Claim C4: a bare variadic list flag consumes exactly the following
run of tokens up to (not including) the next `-`-prefixed token, and the
concrete parse binds arg2 to the two plain tokens and the later scalar
flag arg1 to its own value. -/
theorem variadic_consumes_until_dash :
    (∀ (c : Cmd) (args : List String) (index : Nat) (fname : String) (cfg : ParseCfg),
      cfg.variadicUnknownFlags = false →
      (∃ f, lookupFlag c fname = some f ∧ isVariadicFlag f = true) →
      parseSliceFlag c args index fname cfg =
        (((args.drop (index + 1)).takeWhile (fun a => !strStartsWith a "-")).foldl
          (fun c' a => appendStrListValue c' fname a) c,
         .ok (1 + ((args.drop (index + 1)).takeWhile (fun a => !strStartsWith a "-")).length))) ∧
    (parseCmd cmdC4 ["--arg2", "aaa", "bbb", "--arg1", "ccc"] defaultCfg).2 = none ∧
    flagListValue (parseCmd cmdC4 ["--arg2", "aaa", "bbb", "--arg1", "ccc"] defaultCfg).1 "arg2" =
      some ["aaa", "bbb"] ∧
    flagStrValue (parseCmd cmdC4 ["--arg2", "aaa", "bbb", "--arg1", "ccc"] defaultCfg).1 "arg1" =
      some "ccc" := by
  refine ⟨?_, rfl, rfl, rfl⟩
  intro c args index fname cfg hvuf hv
  obtain ⟨f, hf, hvar⟩ := hv
  unfold parseSliceFlag
  simp only [hf, hvar]
  rw [sliceConsumeLoop_characterization fname cfg hvuf]
  simp

/-- Witness for the C4 variadic-consumption theorem at the concrete
command and argument sequence. -/
theorem variadic_consumes_until_dash_witness :
    parseSliceFlag cmdC4 ["--arg2", "aaa", "bbb", "--arg1", "ccc"] 0 "arg2" defaultCfg =
      (((["--arg2", "aaa", "bbb", "--arg1", "ccc"].drop (0 + 1)).takeWhile
          (fun a => !strStartsWith a "-")).foldl
        (fun c' a => appendStrListValue c' "arg2" a) cmdC4,
       .ok (1 + ((["--arg2", "aaa", "bbb", "--arg1", "ccc"].drop (0 + 1)).takeWhile
          (fun a => !strStartsWith a "-")).length)) :=
  variadic_consumes_until_dash.1 cmdC4 ["--arg2", "aaa", "bbb", "--arg1", "ccc"] 0 "arg2"
    defaultCfg rfl ⟨_, rfl, rfl⟩

/-- Claim C8, as stated, is false at the boundary: a bare non-variadic
list flag as the last token consumes no following token (none exists),
appends nothing and raises no error, with the whole parse succeeding. -/
theorem nonvariadic_list_claim_counterexample :
    (parseLongFlag cmdC8 ["--f"] 0 defaultCfg).2 = Except.ok 1 ∧
    flagListValue (parseLongFlag cmdC8 ["--f"] 0 defaultCfg).1 "f" = some [] ∧
    (parseCmd cmdC8 ["--f"] defaultCfg).2 = none :=
  ⟨rfl, rfl, rfl⟩

/-- Claim C8 (amended): a bare non-variadic list flag consumes exactly one
following token (appending it, separator-split) at every position where a
following token exists; when the flag token is the last token it instead
consumes nothing, appends nothing and raises no error, the flag being
merely marked configured by the surrounding long-flag handler. -/
theorem nonvariadic_list_takes_one_token :
    ∀ (c : Cmd) (args : List String) (index : Nat) (fname : String) (cfg : ParseCfg)
      (f : RaFlag) (dflt : Option (List String)) (v : List String) (sep : Option String),
      lookupFlag c fname = some f → f.data = .strListF dflt v sep false →
      ((∀ t, args.get? (index + 1) = some t →
          parseSliceFlag c args index fname cfg = (appendStrListValue c fname t, Except.ok 2)) ∧
       (args.get? (index + 1) = none →
          parseSliceFlag c args index fname cfg = (c, Except.ok 1)) ∧
       (∀ arg, args.get? index = some arg →
          splitFirstEq (strDrop arg 2) = (fname, none) →
          parseLongFlag c args index cfg =
            parseSliceFlag (setConfigured c fname) args index fname cfg)) := by
  intro c args index fname cfg f dflt v sep hf hd
  have hvar : isVariadicFlag f = false := by
    simp [isVariadicFlag, hd]
  refine ⟨?_, ?_, ?_⟩
  · intro t ht
    rw [List.get?_eq_getElem?] at ht
    unfold parseSliceFlag
    simp [hf, hvar, ht]
  · intro ht
    rw [List.get?_eq_getElem?] at ht
    unfold parseSliceFlag
    simp [hf, hvar, ht]
  · intro arg harg hsplit
    unfold parseLongFlag
    simp only [harg, Option.getD_some, hsplit]
    have hf' : lookupFlag (setConfigured c fname) fname = some f := hf
    simp only [hf, hd]
    cases hres : parseSliceFlag (setConfigured c fname) args index fname cfg with
    | mk c1 r =>
      cases r with
      | ok consumed => simp
      | error e => simp

/-- Witness for the amended C8 theorem: with a following token it is
consumed and appended (two tokens consumed in all); as the last token,
nothing is consumed and no error is raised. -/
theorem nonvariadic_list_takes_one_token_witness :
    parseSliceFlag cmdC8 ["--f", "x"] 0 "f" defaultCfg =
      (appendStrListValue cmdC8 "f" "x", Except.ok 2) ∧
    parseSliceFlag cmdC8 ["--f"] 0 "f" defaultCfg = (cmdC8, Except.ok 1) ∧
    parseLongFlag cmdC8 ["--f", "x"] 0 defaultCfg =
      parseSliceFlag (setConfigured cmdC8 "f") ["--f", "x"] 0 "f" defaultCfg :=
  ⟨(nonvariadic_list_takes_one_token cmdC8 ["--f", "x"] 0 "f" defaultCfg _ _ _ _ rfl rfl).1
      "x" rfl,
   ((nonvariadic_list_takes_one_token cmdC8 ["--f"] 0 "f" defaultCfg _ _ _ _ rfl rfl).2).1 rfl,
   ((nonvariadic_list_takes_one_token cmdC8 ["--f", "x"] 0 "f" defaultCfg _ _ _ _ rfl rfl).2).2
      "--f" rfl rfl⟩

/-- Claim C5, as stated, is false in two cases the code carves out: a
cluster of repeated identical shorts bound to an Int flag (`-dd`) is the
count form and raises no error even though a non-bool flag occupies a
non-last character; and an Int flag last in a cluster with no following
token consumes nothing, falling back to the count 1 instead of consuming
a value. -/
theorem cluster_termination_claim_counterexample :
    (parseShortFlag cmdC5 ["-dd"] 0 false defaultCfg).2 = Except.ok 1 ∧
    flagIntValue (parseShortFlag cmdC5 ["-dd"] 0 false defaultCfg).1 "delta" = some 2 ∧
    (parseShortFlag cmdC5 ["-abd"] 0 false defaultCfg).2 = Except.ok 1 ∧
    flagIntValue (parseShortFlag cmdC5 ["-abd"] 0 false defaultCfg).1 "delta" = some 1 :=
  ⟨rfl, rfl, rfl, rfl⟩

/-- Claim C5 (amended): in a clustered short token of non-identical
characters, a non-bool flag off the last position is a hard error, while a
value-typed flag in last position consumes the next token (string kinds
error without one; Int kinds fall back to the count 1 when the next token
is missing or `-`-prefixed) and the preceding bool shorts are set true; a
cluster of repeated identical shorts on an Int flag is instead the count
form, setting the repetition count. -/
theorem cluster_termination_rule :
    (∀ (args : List String) (index : Nat) (v : String),
      args.get? index = some "-abc" → args.get? (index + 1) = some v →
      (parseShortFlag cmdC5 args index false defaultCfg).2 = Except.ok 2 ∧
      flagStrValue (parseShortFlag cmdC5 args index false defaultCfg).1 "gamma" = some v ∧
      flagBoolValue (parseShortFlag cmdC5 args index false defaultCfg).1 "alpha" = some true ∧
      flagBoolValue (parseShortFlag cmdC5 args index false defaultCfg).1 "beta" = some true) ∧
    (∀ (args : List String) (index : Nat),
      args.get? index = some "-abc" → args.get? (index + 1) = none →
      (parseShortFlag cmdC5 args index false defaultCfg).2 =
        Except.error (.flagNeedsValue "c")) ∧
    (∀ (args : List String) (index : Nat),
      args.get? index = some "-acb" →
      (parseShortFlag cmdC5 args index false defaultCfg).2 =
        Except.error (.nonBoolMustBeLast "c")) ∧
    (∀ (args : List String) (index : Nat) (v : String) (n : Int),
      args.get? index = some "-abd" → args.get? (index + 1) = some v →
      strStartsWith v "-" = false →
      setIntValue "delta" none none none none v = Except.ok n →
      (parseShortFlag cmdC5 args index false defaultCfg).2 = Except.ok 2 ∧
      flagIntValue (parseShortFlag cmdC5 args index false defaultCfg).1 "delta" = some n) ∧
    (∀ (args : List String) (index : Nat),
      args.get? index = some "-abd" → args.get? (index + 1) = none →
      (parseShortFlag cmdC5 args index false defaultCfg).2 = Except.ok 1 ∧
      flagIntValue (parseShortFlag cmdC5 args index false defaultCfg).1 "delta" = some 1) ∧
    (∀ (args : List String) (index : Nat) (v : String),
      args.get? index = some "-abd" → args.get? (index + 1) = some v →
      strStartsWith v "-" = true →
      (parseShortFlag cmdC5 args index false defaultCfg).2 = Except.ok 1 ∧
      flagIntValue (parseShortFlag cmdC5 args index false defaultCfg).1 "delta" = some 1) ∧
    (∀ (args : List String) (index : Nat),
      args.get? index = some "-dd" →
      (parseShortFlag cmdC5 args index false defaultCfg).2 = Except.ok 1 ∧
      flagIntValue (parseShortFlag cmdC5 args index false defaultCfg).1 "delta" = some 2) := by
  have habc : ∀ (args : List String) (index : Nat),
      args.get? index = some "-abc" →
      parseShortFlag cmdC5 args index false defaultCfg =
        (match args.get? (index + 1) with
         | none => (setConfigured c5ab "gamma",
            (Except.error (.flagNeedsValue "c") : Except PErr Nat))
         | some t => (setFlagData (setConfigured c5ab "gamma") "gamma"
            (FlagData.strF none t none), Except.ok 2)) := by
    intro args index h1
    unfold parseShortFlag
    rw [h1]
    exact rfl
  have habd : ∀ (args : List String) (index : Nat),
      args.get? index = some "-abd" →
      parseShortFlag cmdC5 args index false defaultCfg =
        (match args.get? (index + 1) with
         | some t =>
           if ¬strStartsWith t "-" then
             match setIntValue "delta" none none none none t with
             | .ok v' => (setFlagData (setConfigured c5ab "delta") "delta"
                (FlagData.intF none v' none none none none), Except.ok 2)
             | .error e => (setConfigured c5ab "delta", Except.error e)
           else (setFlagData (setConfigured c5ab "delta") "delta"
            (FlagData.intF none 1 none none none none), Except.ok 1)
         | none => (setFlagData (setConfigured c5ab "delta") "delta"
            (FlagData.intF none 1 none none none none), Except.ok 1)) := by
    intro args index h1
    unfold parseShortFlag
    rw [h1]
    exact rfl
  refine ⟨?_, ?_, ?_, ?_, ?_, ?_, ?_⟩
  · intro args index v h1 h2
    rw [habc args index h1, h2]
    exact ⟨rfl, rfl, rfl, rfl⟩
  · intro args index h1 h2
    rw [habc args index h1, h2]
  · intro args index h1
    unfold parseShortFlag
    rw [h1]
    exact rfl
  · intro args index v n h1 h2 hdash hparse
    rw [habd args index h1, h2]
    simp only [hdash, Bool.false_eq_true, not_false_eq_true, if_true, hparse]
    exact ⟨trivial, rfl⟩
  · intro args index h1 h2
    rw [habd args index h1, h2]
    exact ⟨rfl, rfl⟩
  · intro args index v h1 h2 hdash
    rw [habd args index h1, h2]
    simp only [hdash, not_true, if_false]
    exact ⟨trivial, rfl⟩
  · intro args index h1
    unfold parseShortFlag
    rw [h1]
    exact ⟨rfl, rfl⟩

/-- Witness for the amended C5 cluster theorem at concrete inputs. -/
theorem cluster_termination_rule_witness :
    ((parseShortFlag cmdC5 ["-abc", "val"] 0 false defaultCfg).2 = Except.ok 2 ∧
     flagStrValue (parseShortFlag cmdC5 ["-abc", "val"] 0 false defaultCfg).1 "gamma" =
       some "val" ∧
     flagBoolValue (parseShortFlag cmdC5 ["-abc", "val"] 0 false defaultCfg).1 "alpha" =
       some true ∧
     flagBoolValue (parseShortFlag cmdC5 ["-abc", "val"] 0 false defaultCfg).1 "beta" =
       some true) ∧
    (parseShortFlag cmdC5 ["-acb", "val"] 0 false defaultCfg).2 =
      Except.error (.nonBoolMustBeLast "c") ∧
    (parseShortFlag cmdC5 ["-abc"] 0 false defaultCfg).2 =
      Except.error (.flagNeedsValue "c") :=
  ⟨cluster_termination_rule.1 ["-abc", "val"] 0 "val" rfl rfl,
   cluster_termination_rule.2.2.1 ["-acb", "val"] 0 rfl,
   cluster_termination_rule.2.1 ["-abc"] 0 rfl rfl⟩

/-- Claim C6: registering a non-global flag whose short collides with an
existing global flag's short (names differing) succeeds; afterwards the
global keeps its name slot but loses its short, the short maps to the new
flag, the global is recorded in the shadowed-short table and stays in the
global-flag list, and propagation into a subcommand carries the original
flag with its short intact. -/
theorem global_short_shadow (gname fname s : String)
    (hg : gname ≠ "") (hf : fname ≠ "") (hs : s ≠ "") (hne : fname ≠ gname) :
    (globalShortShadowSetup gname fname s).2 = none ∧
    (lookupFlag (globalShortShadowSetup gname fname s).1 gname).map (fun f => f.short) =
      some "" ∧
    lookupA (globalShortShadowSetup gname fname s).1.shortToName s = some fname ∧
    (globalShortShadowSetup gname fname s).1.shadowedShortFlags = [gname] ∧
    (globalShortShadowSetup gname fname s).1.globalFlags = [gname] ∧
    (lookupFlag (applyGlobalFlags (globalShortShadowSetup gname fname s).1 (newCmd "sub"))
        gname).map (fun f => f.short) = some s ∧
    lookupA (applyGlobalFlags (globalShortShadowSetup gname fname s).1 (newCmd "sub")).shortToName
      s = some gname := by
  refine ⟨?_, ?_, ?_, ?_, ?_, ?_, ?_⟩ <;>
    simp [globalShortShadowSetup, registerFlag, checkForGlobalFlagOverride, applyGlobalFlags,
      lookupFlag, lookupA, insertA, removeA, insertName, removeFirst, newCmd,
      validateDefaultValue, zeroValue, validatePositionalOnlyAfterVariadic, isVariadicFlag,
      List.find?, hg, hf, hs, hne, Ne.symm hne]

/-- Witness for the C6 shadowing theorem at concrete names. -/
theorem global_short_shadow_witness :
    (globalShortShadowSetup "verbose" "quiet" "v").2 = none ∧
    (lookupFlag (globalShortShadowSetup "verbose" "quiet" "v").1 "verbose").map
      (fun f => f.short) = some "" ∧
    lookupA (globalShortShadowSetup "verbose" "quiet" "v").1.shortToName "v" = some "quiet" ∧
    (globalShortShadowSetup "verbose" "quiet" "v").1.shadowedShortFlags = ["verbose"] ∧
    (globalShortShadowSetup "verbose" "quiet" "v").1.globalFlags = ["verbose"] ∧
    (lookupFlag (applyGlobalFlags (globalShortShadowSetup "verbose" "quiet" "v").1
        (newCmd "sub")) "verbose").map (fun f => f.short) = some "v" ∧
    lookupA (applyGlobalFlags (globalShortShadowSetup "verbose" "quiet" "v").1
        (newCmd "sub")).shortToName "v" = some "verbose" :=
  global_short_shadow "verbose" "quiet" "v" (by decide) (by decide) (by decide) (by decide)

/-- Lookup after an in-place map update: hit when the key is present. -/
theorem lookupA_map_update {α : Type} (l : List (String × α)) (k : String) (v : α) :
    lookupA (l.map (fun p => if p.1 == k then (k, v) else p)) k =
      if (l.find? (fun p => p.1 == k)).isSome then some v else none := by
  induction l with
  | nil => simp [lookupA]
  | cons p rest ih =>
    by_cases hp : p.1 = k
    · simp [lookupA, List.find?, hp]
    · have hp' : (p.1 == k) = false := by simp [hp]
      simp only [List.map_cons, List.find?, hp', lookupA] at ih ⊢
      simpa [List.find?, hp'] using ih

/-- Lookup in an appended singleton when the key is absent up front. -/
theorem lookupA_append_single {α : Type} (l : List (String × α)) (k : String) (v : α)
    (h : l.find? (fun p => p.1 == k) = none) :
    lookupA (l ++ [(k, v)]) k = some v := by
  induction l with
  | nil => simp [lookupA, List.find?]
  | cons p rest ih =>
    simp only [List.find?] at h
    cases hp : (p.1 == k) with
    | true => rw [hp] at h; cases h
    | false =>
      rw [hp] at h
      simp only [List.cons_append, lookupA, List.find?, hp]
      exact ih h

/-- Lookup of a freshly inserted key. -/
theorem lookupA_insertA_self {α : Type} (l : List (String × α)) (k : String) (v : α) :
    lookupA (insertA l k v) k = some v := by
  unfold insertA
  by_cases h : (l.find? (fun p => p.1 == k)).isSome
  · rw [if_pos h, lookupA_map_update, if_pos h]
  · rw [if_neg h]
    have hnone : l.find? (fun p => p.1 == k) = none := by
      cases hf : l.find? (fun p => p.1 == k) with
      | none => rfl
      | some p => rw [hf] at h; simp at h
    exact lookupA_append_single l k v hnone

/-- In the successful global-registration path, the collision check leaves
the command untouched (both collision branches require a non-global
newcomer). -/
theorem checkForGlobalFlagOverride_global_id (c : Cmd) (n s : String) (c' : Cmd)
    (h : checkForGlobalFlagOverride c n s true = (c', none)) : c' = c := by
  unfold checkForGlobalFlagOverride at h
  cases hl : lookupFlag c n with
  | some f =>
    rw [hl] at h
    simp at h
  | none =>
    rw [hl] at h
    simp at h
    exact h.symm

/-- Claim C9 (registration half): a successful global registration stores
the flag with FlagOnly forced true (string kinds additionally with
Optional forced true), appends the name to the non-positional order list,
and leaves the positional order list untouched. -/
theorem global_forces_flagOnly (f : RaFlag) (c : Cmd) (bypass : Bool) (c' : Cmd)
    (h : registerFlag f c true bypass = (c', none)) :
    (∃ fl, lookupFlag c' f.name = some fl ∧ fl.flagOnly = true ∧
      (∀ dflt v enum, f.data = FlagData.strF dflt v enum → fl.optional = true)) ∧
    c'.nonPositional = c.nonPositional ++ [f.name] ∧
    c'.positional = c.positional := by
  unfold registerFlag at h
  split at h
  · simp at h
  split at h
  · simp at h
  split at h
  · simp at h
  split at h
  · simp at h
  next cmd2 heq =>
    have hc2 : cmd2 = c := checkForGlobalFlagOverride_global_id c f.name f.short cmd2 heq
    subst hc2
    cases hd : f.data with
    | strF dflt v enum =>
      rw [hd] at h
      simp only [zeroValue, if_true] at h
      split at h
      · have h2 := congrArg Prod.snd h
        simp at h2
      · simp at h
        subst h
        refine ⟨⟨{ f with bypassValidation := bypass, data := FlagData.strF dflt "" enum, flagOnly := true, optional := true }, ?_, ?_, ?_⟩, ?_, ?_⟩
        · show lookupA (insertA _ _ _) _ = _
          simp only [apply_ite Cmd.flags, ite_self]
          exact lookupA_insertA_self _ _ _
        · rfl
        · exact fun _ _ _ _ => rfl
        · simp [apply_ite Cmd.nonPositional, ite_self]
        · simp [apply_ite Cmd.positional, ite_self]
    | boolF dflt v =>
      rw [hd] at h
      simp only [zeroValue, if_true] at h
      split at h
      · have h2 := congrArg Prod.snd h
        simp at h2
      · simp at h
        subst h
        refine ⟨⟨{ f with bypassValidation := bypass, data := FlagData.boolF dflt false, flagOnly := true }, ?_, ?_, ?_⟩, ?_, ?_⟩
        · show lookupA (insertA _ _ _) _ = _
          simp only [apply_ite Cmd.flags, ite_self]
          exact lookupA_insertA_self _ _ _
        · rfl
        · exact fun _ _ _ hco => nomatch hco
        · simp [apply_ite Cmd.nonPositional, ite_self]
        · simp [apply_ite Cmd.positional, ite_self]
    | intF dflt v mn mx mni mxi =>
      rw [hd] at h
      simp only [zeroValue, if_true] at h
      split at h
      · have h2 := congrArg Prod.snd h
        simp at h2
      · simp at h
        subst h
        refine ⟨⟨{ f with bypassValidation := bypass, data := FlagData.intF dflt 0 mn mx mni mxi, flagOnly := true }, ?_, ?_, ?_⟩, ?_, ?_⟩
        · show lookupA (insertA _ _ _) _ = _
          simp only [apply_ite Cmd.flags, ite_self]
          exact lookupA_insertA_self _ _ _
        · rfl
        · exact fun _ _ _ hco => nomatch hco
        · simp [apply_ite Cmd.nonPositional, ite_self]
        · simp [apply_ite Cmd.positional, ite_self]
    | strListF dflt v sep vard =>
      rw [hd] at h
      simp only [zeroValue, if_true] at h
      split at h
      · have h2 := congrArg Prod.snd h
        simp at h2
      · simp at h
        subst h
        refine ⟨⟨{ f with bypassValidation := bypass, data := FlagData.strListF dflt [] sep vard, flagOnly := true }, ?_, ?_, ?_⟩, ?_, ?_⟩
        · show lookupA (insertA _ _ _) _ = _
          simp only [apply_ite Cmd.flags, ite_self]
          exact lookupA_insertA_self _ _ _
        · rfl
        · exact fun _ _ _ hco => nomatch hco
        · simp [apply_ite Cmd.nonPositional, ite_self]
        · simp [apply_ite Cmd.positional, ite_self]

/-- Lookup on a cons cell, unfolding one step of the search. -/
theorem lookupA_cons {α : Type} (x : String × α) (xs : List (String × α)) (m : String) :
    lookupA (x :: xs) m = if x.1 == m then some x.2 else lookupA xs m := by
  cases hx : x.1 == m <;> simp [lookupA, List.find?, hx]

/-- Key-preserving in-place update does not disturb other keys. -/
theorem lookupA_setmap_ne {α : Type} (l : List (String × α)) (n m : String) (g : α → α)
    (h : n ≠ m) :
    lookupA (l.map (fun p => if p.1 == n then (p.1, g p.2) else p)) m = lookupA l m := by
  induction l with
  | nil => rfl
  | cons p rest ih =>
    rw [List.map_cons, lookupA_cons, lookupA_cons]
    by_cases hp1 : p.1 = n
    · have hpn : (p.1 == n) = true := by simp [hp1]
      have hpm : (p.1 == m) = false := by simp [hp1, h]
      simp only [hpn, if_true, hpm, Bool.false_eq_true, if_false, ih]
    · have hpn : (p.1 == n) = false := by simp [hp1]
      simp only [hpn, Bool.false_eq_true, if_false]
      cases hpm : (p.1 == m) with
      | true => simp [hpm]
      | false => simp only [hpm, Bool.false_eq_true, if_false, ih]

/-- Writing one flag's data leaves every other flag's record unchanged. -/
theorem lookupFlag_setFlagData_ne (c : Cmd) (n m : String) (d : FlagData) (h : n ≠ m) :
    lookupFlag (setFlagData c n d) m = lookupFlag c m :=
  lookupA_setmap_ne c.flags n m (fun fl => { fl with data := d }) h

/-- Marking one flag configured leaves every flag record unchanged. -/
theorem lookupFlag_setConfigured (c : Cmd) (n m : String) :
    lookupFlag (setConfigured c n) m = lookupFlag c m := rfl

/-- Membership of another name in an appended-singleton set. -/
theorem contains_append_single_ne (l : List String) (n m : String) (h : n ≠ m) :
    (l ++ [n]).contains m = l.contains m := by
  induction l with
  | nil => simp [List.contains_cons, Ne.symm h]
  | cons x xs ih => simp only [List.cons_append, List.contains_cons, ih]

/-- Membership of another name is unchanged by a set insertion. -/
theorem contains_insertName_ne (l : List String) (n m : String) (h : n ≠ m) :
    (insertName l n).contains m = l.contains m := by
  unfold insertName
  split
  · rfl
  · exact contains_append_single_ne l n m h

/-- Appending to one list flag leaves every other flag's record
unchanged. -/
theorem lookupFlag_appendStrListValue_ne (c : Cmd) (n m v : String) (h : n ≠ m) :
    lookupFlag (appendStrListValue c n v) m = lookupFlag c m := by
  unfold appendStrListValue
  cases hl : lookupFlag c n with
  | none => rfl
  | some f =>
    dsimp only
    cases hd : f.data with
    | strListF dflt cur sep vard => exact lookupFlag_setFlagData_ne c n m _ h
    | boolF dflt bv => rfl
    | strF dflt sv enum => rfl
    | intF dflt iv mn mx mni mxi => rfl

/-- The configured set is untouched by a list append. -/
theorem configured_appendStrListValue (c : Cmd) (n v : String) :
    (appendStrListValue c n v).configured = c.configured := by
  unfold appendStrListValue
  cases hl : lookupFlag c n with
  | none => rfl
  | some f =>
    dsimp only
    cases hd : f.data with
    | strListF dflt cur sep vard => rfl
    | boolF dflt bv => rfl
    | strF dflt sv enum => rfl
    | intF dflt iv mn mx mni mxi => rfl

/-- The variadic stickiness handler for another flag preserves this flag's
record and configured status. -/
theorem handleVariadic_preserves (c : Cmd) (n m v : String) (mode : Bool) (h : n ≠ m) :
    lookupFlag (handleVariadicSliceFlag c n mode
      (fun c' => appendStrListValue c' n v)).2 m = lookupFlag c m ∧
    (handleVariadicSliceFlag c n mode
      (fun c' => appendStrListValue c' n v)).2.configured.contains m =
        c.configured.contains m := by
  unfold handleVariadicSliceFlag
  split
  · constructor
    · rw [lookupFlag_appendStrListValue_ne _ _ _ _ h]
      rfl
    · rw [configured_appendStrListValue]
      exact contains_insertName_ne c.configured n m h
  · split
    · constructor
      · rw [lookupFlag_appendStrListValue_ne _ _ _ _ h]
      · rw [configured_appendStrListValue]
    · split
      · exact ⟨rfl, rfl⟩
      · split
        · constructor
          · rw [lookupFlag_appendStrListValue_ne _ _ _ _ h]
            rfl
          · rw [configured_appendStrListValue]
            exact contains_insertName_ne c.configured n m h
        · exact ⟨rfl, rfl⟩

/-- Positional assignment never touches a flag-only flag: its record and
configured status survive the scan of the positional order list. -/
theorem assignPosLoop_preserves (value : String) (mode : Bool) (c : Cmd) (name : String)
    (f : RaFlag) (hl : lookupFlag c name = some f) (hfo : f.flagOnly = true) :
    ∀ l : List String,
      lookupFlag (assignPosLoop value mode c l).1 name = some f ∧
      (assignPosLoop value mode c l).1.configured.contains name =
        c.configured.contains name := by
  intro l
  induction l with
  | nil => exact ⟨hl, rfl⟩
  | cons n' rest ih =>
    simp only [assignPosLoop]
    cases hn : lookupFlag c n' with
    | none => exact ih
    | some f' =>
      dsimp only
      cases hd : f'.data with
      | strF dflt v enum =>
        dsimp only
        by_cases hfo' : f'.flagOnly = true
        · rw [if_pos hfo']
          exact ih
        · rw [if_neg hfo']
          have hne : n' ≠ name := by
            intro he
            rw [he, hl] at hn
            injection hn with hff
            rw [hff] at hfo
            exact hfo' hfo
          by_cases hcfg : c.configured.contains n' = true
          · rw [if_pos hcfg]
            exact ih
          · rw [if_neg hcfg]
            cases hsv : setStringValue n' enum value with
            | ok v2 =>
              refine ⟨?_, ?_⟩
              · rw [lookupFlag_setFlagData_ne (setConfigured c n') n' name _ hne]
                exact hl
              · exact contains_insertName_ne c.configured n' name hne
            | error e =>
              refine ⟨hl, contains_insertName_ne c.configured n' name hne⟩
      | intF dflt v mn mx mni mxi =>
        dsimp only
        by_cases hfo' : f'.flagOnly = true
        · rw [if_pos hfo']
          exact ih
        · rw [if_neg hfo']
          have hne : n' ≠ name := by
            intro he
            rw [he, hl] at hn
            injection hn with hff
            rw [hff] at hfo
            exact hfo' hfo
          by_cases hcfg : c.configured.contains n' = true
          · rw [if_pos hcfg]
            exact ih
          · rw [if_neg hcfg]
            cases hsv : setIntValue n' mn mx mni mxi value with
            | ok v2 =>
              refine ⟨?_, ?_⟩
              · rw [lookupFlag_setFlagData_ne (setConfigured c n') n' name _ hne]
                exact hl
              · exact contains_insertName_ne c.configured n' name hne
            | error e =>
              refine ⟨hl, contains_insertName_ne c.configured n' name hne⟩
      | boolF dflt v =>
        dsimp only
        by_cases hfo' : f'.flagOnly = true
        · rw [if_pos hfo']
          exact ih
        · rw [if_neg hfo']
          have hne : n' ≠ name := by
            intro he
            rw [he, hl] at hn
            injection hn with hff
            rw [hff] at hfo
            exact hfo' hfo
          by_cases hcfg : c.configured.contains n' = true
          · rw [if_pos hcfg]
            exact ih
          · rw [if_neg hcfg]
            cases hsv : strconvParseBool value with
            | none =>
              refine ⟨hl, contains_insertName_ne c.configured n' name hne⟩
            | some bv =>
              refine ⟨?_, ?_⟩
              · rw [lookupFlag_setFlagData_ne (setConfigured c n') n' name _ hne]
                exact hl
              · exact contains_insertName_ne c.configured n' name hne
      | strListF dflt v sep vard =>
        dsimp only
        by_cases hfo' : f'.flagOnly = true
        · rw [if_pos hfo']
          exact ih
        · rw [if_neg hfo']
          have hne : n' ≠ name := by
            intro he
            rw [he, hl] at hn
            injection hn with hff
            rw [hff] at hfo
            exact hfo' hfo
          by_cases hv : vard = true
          · rw [if_pos hv]
            have hpres := handleVariadic_preserves c n' name value mode hne
            cases hh : handleVariadicSliceFlag c n' mode
                (fun c' => appendStrListValue c' n' value) with
            | mk handled c'' =>
              rw [hh] at hpres
              cases handled with
              | true => exact ⟨hpres.1.trans hl, hpres.2⟩
              | false => exact ih
          · rw [if_neg hv]
            by_cases hcfg : c.configured.contains n' = true
            · rw [if_pos hcfg]
              exact ih
            · rw [if_neg hcfg]
              refine ⟨?_, ?_⟩
              · rw [lookupFlag_appendStrListValue_ne _ n' name value hne]
                exact hl
              · rw [configured_appendStrListValue]
                exact contains_insertName_ne c.configured n' name hne

/-- Claim C9: a flag registered with the global option is stored flag-only
(string kinds additionally optional), joins the non-positional order list
(leaving the positional list untouched), and positional assignment can
never write to it or mark it configured. -/
theorem global_flags_never_positional :
    (∀ (f : RaFlag) (c : Cmd) (bypass : Bool) (c' : Cmd),
      registerFlag f c true bypass = (c', none) →
      (∃ fl, lookupFlag c' f.name = some fl ∧ fl.flagOnly = true ∧
        (∀ dflt v enum, f.data = FlagData.strF dflt v enum → fl.optional = true)) ∧
      c'.nonPositional = c.nonPositional ++ [f.name] ∧
      c'.positional = c.positional) ∧
    (∀ (c : Cmd) (name value : String) (mode : Bool) (f : RaFlag),
      lookupFlag c name = some f → f.flagOnly = true →
      lookupFlag (assignPositionalWithMode c value mode).1 name = some f ∧
      (assignPositionalWithMode c value mode).1.configured.contains name =
        c.configured.contains name) :=
  ⟨fun f c bypass c' h => global_forces_flagOnly f c bypass c' h,
   fun c name value mode f hl hfo =>
     assignPosLoop_preserves value mode c name f hl hfo c.positional⟩

/-- Witness for the C9 theorem: a concrete global string flag is stored
flag-only and optional, and a positional token does not touch it. -/
theorem global_flags_never_positional_witness :
    ((∃ fl, lookupFlag (registerFlag { name := "glob", data := .strF none "" none }
        (newCmd "app") true false).1 "glob" = some fl ∧ fl.flagOnly = true ∧
      (∀ dflt v enum,
        ({ name := "glob", data := .strF none "" none } : RaFlag).data =
          FlagData.strF dflt v enum → fl.optional = true)) ∧
     (registerFlag { name := "glob", data := .strF none "" none }
        (newCmd "app") true false).1.nonPositional = (newCmd "app").nonPositional ++ ["glob"] ∧
     (registerFlag { name := "glob", data := .strF none "" none }
        (newCmd "app") true false).1.positional = (newCmd "app").positional) ∧
    (lookupFlag (assignPositionalWithMode
        (registerFlag { name := "glob", data := .strF none "" none }
          (newCmd "app") true false).1 "tok" false).1 "glob" =
      lookupFlag (registerFlag { name := "glob", data := .strF none "" none }
          (newCmd "app") true false).1 "glob") := by
  constructor
  · exact global_flags_never_positional.1
      { name := "glob", data := .strF none "" none } (newCmd "app") false _ rfl
  · have h := global_flags_never_positional.2
      (registerFlag { name := "glob", data := .strF none "" none }
        (newCmd "app") true false).1 "glob" "tok" false _ rfl rfl
    exact h.1.trans (by rfl)

/-- Reflexivity of table preservation. -/
theorem preservesTables_refl (c : Cmd) : preservesTables c c := ⟨rfl, rfl⟩

/-- Transitivity of table preservation. -/
theorem preservesTables_trans {a b c : Cmd}
    (h1 : preservesTables a b) (h2 : preservesTables b c) : preservesTables a c :=
  ⟨h2.1.trans h1.1, h2.2.trans h1.2⟩

/-- Flag keys survive an in-place data write. -/
@[simp] theorem mapfst_setFlagData (c : Cmd) (n : String) (d : FlagData) :
    (setFlagData c n d).flags.map Prod.fst = c.flags.map Prod.fst := by
  show (c.flags.map _).map Prod.fst = _
  rw [List.map_map]
  apply List.map_congr_left
  intro p _
  by_cases hp : p.1 = n <;> simp [hp]

/-- Short table is untouched by a data write. -/
@[simp] theorem shortToName_setFlagData (c : Cmd) (n : String) (d : FlagData) :
    (setFlagData c n d).shortToName = c.shortToName := rfl

/-- Flags are untouched by a configured mark. -/
@[simp] theorem flags_setConfigured (c : Cmd) (n : String) :
    (setConfigured c n).flags = c.flags := rfl

/-- Short table is untouched by a configured mark. -/
@[simp] theorem shortToName_setConfigured (c : Cmd) (n : String) :
    (setConfigured c n).shortToName = c.shortToName := rfl

/-- Flag keys survive a list append. -/
@[simp] theorem mapfst_appendStrListValue (c : Cmd) (n v : String) :
    (appendStrListValue c n v).flags.map Prod.fst = c.flags.map Prod.fst := by
  unfold appendStrListValue
  cases hl : lookupFlag c n with
  | none => rfl
  | some f =>
    dsimp only
    cases hd : f.data with
    | strListF dflt cur sep vard => simp
    | boolF dflt bv => rfl
    | strF dflt sv enum => rfl
    | intF dflt iv mn mx mni mxi => rfl

/-- Short table is untouched by a list append. -/
@[simp] theorem shortToName_appendStrListValue (c : Cmd) (n v : String) :
    (appendStrListValue c n v).shortToName = c.shortToName := by
  unfold appendStrListValue
  cases hl : lookupFlag c n with
  | none => rfl
  | some f =>
    dsimp only
    cases hd : f.data with
    | strListF dflt cur sep vard => rfl
    | boolF dflt bv => rfl
    | strF dflt sv enum => rfl
    | intF dflt iv mn mx mni mxi => rfl

/-- Table preservation for the primitive state writes. -/
theorem preservesTables_appendStrListValue (c : Cmd) (n v : String) :
    preservesTables c (appendStrListValue c n v) := ⟨by simp, by simp⟩

/-- Table preservation for the variadic stickiness handler. -/
theorem preservesTables_handleVariadic (c : Cmd) (n v : String) (mode : Bool) :
    preservesTables c (handleVariadicSliceFlag c n mode
      (fun c' => appendStrListValue c' n v)).2 := by
  unfold handleVariadicSliceFlag
  split
  · exact ⟨by simp, by simp⟩
  · split
    · exact ⟨by simp, by simp⟩
    · split
      · exact preservesTables_refl c
      · split
        · exact ⟨by simp, by simp⟩
        · exact preservesTables_refl c

/-- Table preservation for the positional-assignment scan. -/
theorem preservesTables_assignPosLoop (value : String) (mode : Bool) :
    ∀ (l : List String) (c : Cmd), preservesTables c (assignPosLoop value mode c l).1 := by
  intro l
  induction l with
  | nil => intro c; exact preservesTables_refl c
  | cons n' rest ih =>
    intro c
    simp only [assignPosLoop]
    cases hn : lookupFlag c n' with
    | none => exact ih c
    | some f =>
      dsimp only
      cases hd : f.data with
      | strF dflt v enum =>
        dsimp only
        split
        · exact ih c
        · split
          · exact ih c
          · split
            · exact ⟨by simp, by simp⟩
            · exact ⟨by simp, by simp⟩
      | intF dflt v mn mx mni mxi =>
        dsimp only
        split
        · exact ih c
        · split
          · exact ih c
          · split
            · exact ⟨by simp, by simp⟩
            · exact ⟨by simp, by simp⟩
      | boolF dflt v =>
        dsimp only
        split
        · exact ih c
        · split
          · exact ih c
          · split
            · exact ⟨by simp, by simp⟩
            · exact ⟨by simp, by simp⟩
      | strListF dflt v sep vard =>
        dsimp only
        split
        · exact ih c
        · split
          · split
            · next heq =>
                have hp := preservesTables_handleVariadic c n' value mode
                rw [heq] at hp
                exact hp
            · exact ih c
          · split
            · exact ih c
            · exact ⟨by simp, by simp⟩

/-- Table preservation for positional assignment. -/
theorem preservesTables_assignPositionalWithMode (c : Cmd) (value : String) (mode : Bool) :
    preservesTables c (assignPositionalWithMode c value mode).1 :=
  preservesTables_assignPosLoop value mode c.positional c

/-- Table preservation for the variadic consumption loop. -/
theorem preservesTables_sliceConsumeLoop (fname : String) (cfg : ParseCfg) :
    ∀ (l : List String) (c : Cmd) (consumed : Nat),
      preservesTables c (sliceConsumeLoop fname cfg c l consumed).1 := by
  intro l
  induction l with
  | nil => intro c consumed; exact preservesTables_refl c
  | cons a rest ih =>
    intro c consumed
    simp only [sliceConsumeLoop]
    split
    · split
      · exact preservesTables_refl c
      · exact preservesTables_refl c
    · exact preservesTables_trans (preservesTables_appendStrListValue c fname a)
        (ih (appendStrListValue c fname a) (consumed + 1))

/-- Table preservation for list-flag consumption. -/
theorem preservesTables_parseSliceFlag (c : Cmd) (args : List String) (index : Nat)
    (fname : String) (cfg : ParseCfg) :
    preservesTables c (parseSliceFlag c args index fname cfg).1 := by
  unfold parseSliceFlag
  repeat' first
    | split
    | dsimp only
  all_goals first
    | exact preservesTables_refl _
    | exact preservesTables_appendStrListValue _ _ _
    | exact preservesTables_sliceConsumeLoop _ _ _ _ _

/-- Composition helper: running the slice parser on a configured command
keeps the flag-name table and the short-name table. -/
theorem preservesTables_parseSliceFlag_conf (c : Cmd) (args : List String)
    (index : Nat) (fn : String) (cfg : ParseCfg) (c1 : Cmd) (r : Except PErr Nat)
    (h : parseSliceFlag (setConfigured c fn) args index fn cfg = (c1, r)) :
    preservesTables c c1 := by
  have hp := preservesTables_parseSliceFlag (setConfigured c fn) args index fn cfg
  rw [h] at hp
  exact ⟨by simpa using hp.1, by simpa using hp.2⟩

/-- Table preservation for long-flag handling. -/
theorem preservesTables_parseLongFlag (c : Cmd) (args : List String) (index : Nat)
    (cfg : ParseCfg) :
    preservesTables c (parseLongFlag c args index cfg).1 := by
  refine ⟨?_, ?_⟩ <;>
    (unfold parseLongFlag
     repeat' first | split | dsimp only) <;>
    first
      | rfl
      | (have h1 := preservesTables_parseSliceFlag_conf c args index _ cfg _ _ (by assumption)
         first
           | simpa using h1.1
           | simpa using h1.2)
      | simp

/-- Table preservation for the short-cluster scan. -/
theorem preservesTables_clusterLoop (args : List String) (index : Nat) (hasValue : Bool)
    (value : String) (cfg : ParseCfg) (chs : List Char) :
    ∀ (c : Cmd) (consumed : Nat),
      preservesTables c (clusterLoop args index hasValue value cfg c chs consumed).1 := by
  induction chs with
  | nil => intro c consumed; exact preservesTables_refl c
  | cons ch rest ih =>
    intro c consumed
    unfold clusterLoop
    repeat' first | split | dsimp only
    all_goals first
      | exact preservesTables_refl _
      | (refine ⟨?_, ?_⟩ <;> (simp; done))
      | (refine preservesTables_trans ?_ (ih _ _)
         refine ⟨?_, ?_⟩ <;> (simp; done))
      | (have h1 := preservesTables_parseSliceFlag_conf c args index _ cfg _ _ (by assumption)
         first
           | (refine preservesTables_trans ?_ (ih _ _)
              refine ⟨?_, ?_⟩ <;> (simp [h1.1, h1.2]; done))
           | (refine ⟨?_, ?_⟩ <;> (simp [h1.1, h1.2]; done)))

/-- Table preservation when the digit-shorts branch returns a result. -/
theorem preservesTables_nsmScan_inl (c0 : Cmd) (args : List String) (index : Nat)
    (shorts : String) (sChars : List Char) (hv : Bool) (v : String)
    (r : Cmd × Except PErr Nat)
    (h : nsmScan c0 args index shorts sChars hv v = .inl r) :
    preservesTables c0 r.1 := by
  unfold nsmScan at h
  repeat' split at h
  all_goals cases h
  all_goals first
    | exact preservesTables_refl _
    | (refine ⟨?_, ?_⟩ <;> (simp; done))

/-- Table preservation when the digit-shorts branch falls through. -/
theorem preservesTables_nsmScan_inr (c0 : Cmd) (args : List String) (index : Nat)
    (shorts : String) (sChars : List Char) (hv : Bool) (v : String)
    (c1 : Cmd) (h : nsmScan c0 args index shorts sChars hv v = .inr c1) :
    preservesTables c0 c1 := by
  unfold nsmScan at h
  repeat' split at h
  all_goals cases h
  all_goals first
    | exact preservesTables_refl _
    | (refine ⟨?_, ?_⟩ <;> (simp; done))

/-- Table preservation when the repeated-short branch returns a result. -/
theorem preservesTables_allSameScan_inl (c1 : Cmd) (sChars : List Char) (hv : Bool)
    (v : String) (r : Cmd × Except PErr Nat)
    (h : allSameScan c1 sChars hv v = .inl r) :
    preservesTables c1 r.1 := by
  unfold allSameScan at h
  repeat' split at h
  all_goals cases h
  all_goals first
    | exact preservesTables_refl _
    | (refine ⟨?_, ?_⟩ <;> (simp; done))

/-- Table preservation when the repeated-short branch falls through. -/
theorem preservesTables_allSameScan_inr (c1 : Cmd) (sChars : List Char) (hv : Bool)
    (v : String) (c2 : Cmd) (h : allSameScan c1 sChars hv v = .inr c2) :
    preservesTables c1 c2 := by
  unfold allSameScan at h
  repeat' split at h
  all_goals cases h
  all_goals first
    | exact preservesTables_refl _
    | (refine ⟨?_, ?_⟩ <;> (simp; done))

/-- If-guarded form of the digit-shorts result preservation. -/
theorem preservesTables_nsmOut_inl (c0 : Cmd) (args : List String) (index : Nat)
    (shorts : String) (sChars : List Char) (hv : Bool) (v : String)
    (P : Prop) [Decidable P] (r : Cmd × Except PErr Nat)
    (h : (if P then nsmScan c0 args index shorts sChars hv v else Sum.inr c0) = .inl r) :
    preservesTables c0 r.1 := by
  split at h
  · exact preservesTables_nsmScan_inl c0 args index shorts sChars hv v r h
  · cases h

/-- If-guarded form of the digit-shorts fallthrough preservation. -/
theorem preservesTables_nsmOut_inr (c0 : Cmd) (args : List String) (index : Nat)
    (shorts : String) (sChars : List Char) (hv : Bool) (v : String)
    (P : Prop) [Decidable P] (c1 : Cmd)
    (h : (if P then nsmScan c0 args index shorts sChars hv v else Sum.inr c0) = .inr c1) :
    preservesTables c0 c1 := by
  split at h
  · exact preservesTables_nsmScan_inr c0 args index shorts sChars hv v c1 h
  · cases h; exact preservesTables_refl _

/-- Table preservation for short-flag handling. -/
theorem preservesTables_parseShortFlag (c : Cmd) (args : List String) (index : Nat)
    (nsm : Bool) (cfg : ParseCfg) :
    preservesTables c (parseShortFlag c args index nsm cfg).1 := by
  unfold parseShortFlag
  repeat' first | split | dsimp only
  all_goals first
    | exact preservesTables_refl _
    | (refine ⟨?_, ?_⟩ <;> (simp; done))
    | exact preservesTables_nsmOut_inl c args index _ _ _ _ _ _ (by assumption)
    | (have h1 := preservesTables_nsmOut_inr c args index _ _ _ _ _ _ (by assumption)
       first
         | exact h1
         | (refine ⟨?_, ?_⟩ <;> (simp [h1.1, h1.2]; done))
         | (have h2 := preservesTables_allSameScan_inl _ _ _ _ _ (by assumption)
            exact preservesTables_trans h1 h2)
         | (have h2 := preservesTables_allSameScan_inr _ _ _ _ _ (by assumption)
            refine preservesTables_trans ?_ (preservesTables_clusterLoop args index _ _ cfg _ _ _)
            exact preservesTables_trans h1 h2))
    | (have h2 := preservesTables_allSameScan_inl c _ _ _ _ (by assumption)
       exact h2)
    | (have h2 := preservesTables_allSameScan_inr c _ _ _ _ (by assumption)
       refine preservesTables_trans ?_ (preservesTables_clusterLoop args index _ _ cfg _ _ _)
       exact h2)

/-- Table preservation for flag-token dispatch. -/
theorem preservesTables_parseFlag (c : Cmd) (args : List String) (index : Nat)
    (nsm : Bool) (cfg : ParseCfg) :
    preservesTables c (parseFlag c args index nsm cfg).1 := by
  unfold parseFlag
  repeat' first | split | dsimp only
  all_goals first
    | exact preservesTables_refl _
    | exact preservesTables_parseLongFlag c args index cfg
    | exact preservesTables_parseShortFlag c args index nsm cfg

/-- Equation form of flag-dispatch table preservation. -/
theorem preservesTables_parseFlag_eq (c : Cmd) (args : List String) (index : Nat)
    (nsm : Bool) (cfg : ParseCfg) (c1 : Cmd) (r : Except PErr Nat)
    (h : parseFlag c args index nsm cfg = (c1, r)) : preservesTables c c1 := by
  have hp := preservesTables_parseFlag c args index nsm cfg
  rw [h] at hp
  exact hp

/-- Equation form of positional-assignment table preservation. -/
theorem preservesTables_assignPosWM_eq (c : Cmd) (value : String) (mode : Bool)
    (c1 : Cmd) (r : Option PErr)
    (h : assignPositionalWithMode c value mode = (c1, r)) : preservesTables c c1 := by
  have hp := preservesTables_assignPositionalWithMode c value mode
  rw [h] at hp
  exact hp

/-- Equation form for normal-mode positional assignment. -/
theorem preservesTables_assignPositional_eq (c : Cmd) (value : String)
    (c1 : Cmd) (r : Option PErr)
    (h : assignPositional c value = (c1, r)) : preservesTables c c1 :=
  preservesTables_assignPosWM_eq c value false c1 r h

/-- Table preservation for the token loop. -/
theorem preservesTables_parseLoop (cfg : ParseCfg) (nsm : Bool) (args : List String)
    (fuel : Nat) :
    ∀ (c : Cmd) (i : Nat) (sd : Bool),
      preservesTables c (parseLoop cfg nsm args fuel c i sd).1 := by
  induction fuel with
  | zero => intro c i sd; exact preservesTables_refl c
  | succ fuel ih =>
    intro c i sd
    unfold parseLoop
    repeat' first | split | dsimp only
    all_goals first
      | exact preservesTables_refl _
      | (refine preservesTables_trans ?_ (ih _ _ _)
         refine ⟨?_, ?_⟩ <;> (simp; done))
      | (have h1 := preservesTables_parseFlag_eq c args i nsm cfg _ _ (by assumption)
         first
           | (refine preservesTables_trans ?_ (ih _ _ _)
              refine ⟨?_, ?_⟩ <;> (simp [h1.1, h1.2]; done))
           | (refine ⟨?_, ?_⟩ <;> (simp [h1.1, h1.2]; done)))
      | (have h1 := preservesTables_assignPosWM_eq c _ true _ _ (by assumption)
         first
           | (refine preservesTables_trans ?_ (ih _ _ _)
              refine ⟨?_, ?_⟩ <;> (simp [h1.1, h1.2]; done))
           | (refine ⟨?_, ?_⟩ <;> (simp [h1.1, h1.2]; done)))
      | (have h1 := preservesTables_parseFlag_eq c args i nsm cfg _ _ (by assumption)
         have h2 := preservesTables_assignPositional_eq _ _ _ _ (by assumption)
         have h3 := preservesTables_trans h1 h2
         first
           | (refine preservesTables_trans ?_ (ih _ _ _)
              refine ⟨?_, ?_⟩ <;> (simp [h3.1, h3.2]; done))
           | (refine ⟨?_, ?_⟩ <;> (simp [h3.1, h3.2]; done)))
      | (have h1 := preservesTables_assignPositional_eq c _ _ _ (by assumption)
         first
           | (refine preservesTables_trans ?_ (ih _ _ _)
              refine ⟨?_, ?_⟩ <;> (simp [h1.1, h1.2]; done))
           | (refine ⟨?_, ?_⟩ <;> (simp [h1.1, h1.2]; done)))

/-- Table preservation for default installation. -/
theorem preservesTables_setDefaults (c : Cmd) : preservesTables c (setDefaults c) := by
  refine ⟨?_, rfl⟩
  unfold setDefaults
  dsimp only
  rw [List.map_map]
  apply List.map_congr_left
  intro p _
  dsimp only [Function.comp]
  repeat' first | split | dsimp only
  all_goals rfl

/-- Key-membership characterisation of association-list lookup. -/
theorem lookupA_isSome_keys {α : Type} (l : List (String × α)) (k : String) :
    (lookupA l k).isSome = (l.map Prod.fst).contains k := by
  induction l with
  | nil => rfl
  | cons p rest ih =>
    by_cases hp : p.1 = k
    · subst hp; simp [lookupA, List.find?_cons]
    · have hpb : (p.1 == k) = false := by simp [hp]
      have hkb : (k == p.1) = false := by simp; exact fun h => hp h.symm
      simp only [lookupA, List.find?_cons, hpb, cond_false, List.map_cons,
        List.contains_cons, hkb, Bool.false_or]
      exact ih

/-- Computed effect of the lazy help registration when help is enabled,
no flag named `help` exists and the short `h` is free: the global
flag-only optional Bool flag `help` joins the tables. -/
theorem addHelpFlag_eq (c : Cmd) (h1 : c.helpEnabled = true)
    (h2 : lookupFlag c "help" = none) (h3 : lookupA c.shortToName "h" = none) :
    addHelpFlag c = { c with
      globalFlags := c.globalFlags ++ ["help"],
      shortToName := insertA c.shortToName "h" "help",
      flags := c.flags ++ [("help",
        { name := "help", short := "h", usage := "Print usage string.",
          optional := true, flagOnly := true, data := .boolF none false })],
      nonPositional := c.nonPositional ++ ["help"] } := by
  have h2' : lookupA c.flags "help" = none := h2
  have hfind : c.flags.find? (fun p => p.1 == "help") = none := by
    cases hf : c.flags.find? (fun p => p.1 == "help") with
    | none => rfl
    | some q => rw [lookupA, hf] at h2'; cases h2'
  have h3' : (lookupA c.shortToName "h").isSome = false := by rw [h3]; rfl
  simp [addHelpFlag, h1, h2, registerFlag, checkForGlobalFlagOverride,
    validateDefaultValue, zeroValue, insertA, hfind, h3']

/-- Equation form of token-loop table preservation. -/
theorem preservesTables_parseLoop_eq (cfg : ParseCfg) (nsm : Bool) (args : List String)
    (fuel : Nat) (c : Cmd) (i : Nat) (sd : Bool) (c' : Cmd) (r : Option PErr)
    (h : parseLoop cfg nsm args fuel c i sd = (c', r)) : preservesTables c c' := by
  have hp := preservesTables_parseLoop cfg nsm args fuel c i sd
  rw [h] at hp
  exact hp

/-- Everything after the help registration preserves the flag and short
tables: the parse result's tables are those set up by `addHelpFlag`. -/
theorem preservesTables_parseCmd_post (c : Cmd) (args : List String) (cfg : ParseCfg) :
    preservesTables
      (addHelpFlag { c with configured := [], unknownArgs := [], lastVariadicFlag := "", sawFlag := false })
      (parseCmd c args cfg).1 := by
  unfold parseCmd
  repeat' first | split | dsimp only
  all_goals first
    | exact preservesTables_refl _
    | exact preservesTables_setDefaults _
    | (have hp := preservesTables_parseLoop_eq _ _ _ _ _ _ _ _ _ (by assumption)
       exact preservesTables_trans (preservesTables_setDefaults _) hp)

/-- C10: counterexample.  On a command whose user flag `verbose` owns the
short `h`, parse does not register a `help` flag: the help registration
error is silently discarded, so after parsing no flag named `help` exists
and `h` still maps to `verbose` (and `--help` support is silently absent
even though help is enabled). -/
theorem help_flag_claim_counterexample :
    cmdC10.helpEnabled = true ∧
    lookupFlag (parseCmd cmdC10 [] defaultCfg).1 "help" = none ∧
    lookupA (parseCmd cmdC10 [] defaultCfg).1.shortToName "h" = some "verbose" :=
  ⟨rfl, rfl, rfl⟩

/-- C10 (amended): for every parse call on a command with help enabled
where no flag named `help` is registered and the short `h` is unclaimed,
parse registers the global optional Bool flag `help` with short `h` before
scanning tokens, and after any such parse the name `help` occupies a slot
in the command's flag table with the short `h` mapped to it. -/
theorem help_flag_registered (c : Cmd) (args : List String) (cfg : ParseCfg)
    (h1 : c.helpEnabled = true) (h2 : lookupFlag c "help" = none)
    (h3 : lookupA c.shortToName "h" = none) :
    (lookupFlag (parseCmd c args cfg).1 "help").isSome = true ∧
    lookupA (parseCmd c args cfg).1.shortToName "h" = some "help" := by
  have hadd := addHelpFlag_eq
    { c with configured := [], unknownArgs := [], lastVariadicFlag := "", sawFlag := false }
    h1 h2 h3
  have hp := preservesTables_parseCmd_post c args cfg
  rw [hadd] at hp
  constructor
  · show (lookupA (parseCmd c args cfg).1.flags "help").isSome = true
    rw [lookupA_isSome_keys, hp.1]
    simp
  · rw [hp.2]
    exact lookupA_insertA_self c.shortToName "h" "help"

/-- Witness for the amended C10 theorem at a concrete command. -/
theorem help_flag_registered_witness :
    (newCmd "w").helpEnabled = true ∧
    lookupFlag (newCmd "w") "help" = none ∧
    lookupA (newCmd "w").shortToName "h" = none ∧
    ((lookupFlag (parseCmd (newCmd "w") [] defaultCfg).1 "help").isSome = true ∧
     lookupA (parseCmd (newCmd "w") [] defaultCfg).1.shortToName "h" = some "help") :=
  ⟨rfl, rfl, rfl, help_flag_registered (newCmd "w") [] defaultCfg rfl rfl rfl⟩

end Ra
